import Mathlib

/-!
# go-transport: the playback / broadcast engine of `backend/cmd/server/main.go`

A shallow embedding of the server's pacing loop (`streamFile`, `streamAudioFiles`),
of the client registry (`manageClients`, `broadcastFrame`), of the set-track
handler (`handlePlay`) and of the track catalog (`getTrackInfoFromPath`,
`loadTracks`), with the properties of the specification proved or refuted on it.

Conventions of the embedding:
* Go strings are Lean `String`s; a file's content is a list of bytes.
* Operating-system calls (`os.Stat`, `os.ReadDir`, `os.Open`) are answered by an
  explicit file-system argument; the list that `filepath.Glob` returns is an argument
  of the functions of the pacing loop, and `filepathGlob` computes it from the
  listings; the scheduler's choices in a `select` are an explicit list of events.
* A Go run-time panic is an explicit result: the `none` of `index`, and
  `IterationResult.panic` for an iteration of the pacing loop.
* `activeTrackPath` is passed in and out explicitly; a value that a concurrent
  `handlePlay` may have changed between two reads of the loop is a separate argument.
-/

namespace GoTransport

/-! ## Constants (`main.go`, lines 18-27) -/

/-- Constant `SampleRate`: 48 kHz. -/
def SampleRate : Nat := 48000

/-- Constant `Channels`: stereo. -/
def Channels : Nat := 2

/-- Constant `BitDepth`: 16-bit PCM. -/
def BitDepth : Nat := 16

/-- Constant `FrameSize`: samples per 10 ms per channel. -/
def FrameSize : Nat := SampleRate / 100

/-- Constant `BytesPerSample`: bytes per sample frame. -/
def BytesPerSample : Nat := BitDepth / 8 * Channels

/-- Constant `AudioDir`: base directory of the audio files. -/
def AudioDir : String := "audio/output"

/-- The length of the buffer `audioFrame`, `FrameSize*Channels*(BitDepth/8)`. -/
def frameBytes : Nat := FrameSize * Channels * (BitDepth / 8)

/-- One byte of a file; only the position of a byte matters to the engine. -/
abbrev Byte := Nat

/-! ## `streamFile` (lines 121-164) -/

/-- The error value of `io.ReadFull`. -/
inductive ReadErr where
  | eof
  | unexpectedEOF
  | other
  deriving DecidableEq, Repr

/-- `io.ReadFull(f, buf)` with `len(buf) = size` on a file whose unread part is `rest`
and whose device does not fail: the bytes read (`buf[:n]`), the error, and the unread
part left. `io.EOF` when no byte was read, `io.ErrUnexpectedEOF` when some but fewer
than `size` were. -/
def readFull (rest : List Byte) (size : Nat) : List Byte × Option ReadErr × List Byte :=
  let buf := rest.take size
  if buf.length = size then (buf, none, rest.drop size)
  else if buf.length = 0 then (buf, some ReadErr.eof, rest.drop size)
  else (buf, some ReadErr.unexpectedEOF, rest.drop size)

/-- What the `select` of `streamFile` receives in one iteration of its loop. -/
inductive SelectEvent where
  /-- `<-ticker.C`, and the device serves the read. -/
  | tick
  /-- `<-ticker.C`, and `io.ReadFull` fails with an error that is not an end of file. -/
  | tickReadFails
  /-- `<-streamStopSignal`. -/
  | stop
  deriving DecidableEq, Repr

/-- How a run of `streamFile` ends. All but `openError` and `readError` are the Go
`return nil`; `blocked` is a loop still waiting in its `select` when the listed events
are used up. -/
inductive StreamEnd where
  | notActive
  | openError
  | endOfFile
  | readError
  | stopped
  | blocked
  deriving DecidableEq, Repr

/-- The `for { select { ... } }` loop of `streamFile` on the unread part of the opened
file: the frames handed to `broadcastFrame`, in order, and how the loop ends. -/
def streamLoop : List SelectEvent → List Byte → List (List Byte) × StreamEnd
  | [], _ => ([], StreamEnd.blocked)
  | SelectEvent.stop :: _, _ => ([], StreamEnd.stopped)
  | SelectEvent.tickReadFails :: _, _ => ([], StreamEnd.readError)
  | SelectEvent.tick :: evs, rest =>
    match readFull rest frameBytes with
    | (_, some ReadErr.eof, _) => ([], StreamEnd.endOfFile)
    | (buf, some ReadErr.unexpectedEOF, _) =>
      (if buf.length > 0 then [buf] else [], StreamEnd.endOfFile)
    | (_, some ReadErr.other, _) => ([], StreamEnd.readError)
    | (buf, none, rest') =>
      let r := streamLoop evs rest'
      (buf :: r.1, r.2)

/-- Function `streamFile(filePath)`: `activeTrackPath` is the value read under the lock,
`openFile` answers `os.Open` (`none` is an error, otherwise the file's bytes). -/
def streamFile (activeTrackPath : String) (openFile : String → Option (List Byte))
    (events : List SelectEvent) (filePath : String) : List (List Byte) × StreamEnd :=
  if filePath ≠ activeTrackPath then ([], StreamEnd.notActive)
  else
    match openFile filePath with
    | none => ([], StreamEnd.openError)
    | some content => streamLoop events content

/-! ## The client registry: `manageClients` (lines 97-108), `broadcastFrame` (lines 110-119) -/

/-- A connection handle (`*websocket.Conn`), the key of the map `clients`. -/
abbrev Conn := Nat

/-- The `register` case of `manageClients`: `clients[client] = true`. The list holds the
keys of the map. -/
def registerClient (client : Conn) (clients : List Conn) : List Conn :=
  if client ∈ clients then clients else clients ++ [client]

/-- The `unregister` case of `manageClients`: `delete(clients, client)`. -/
def unregisterClient (client : Conn) (clients : List Conn) : List Conn :=
  clients.filter (fun c => c ≠ client)

/-- Function `broadcastFrame(frame)` over the keys of `clients` in the order the `range`
visits them. `writeOk c frame` tells whether `c.WriteMessage(BinaryMessage, frame)`
returns no error. The result is the list of write attempts made, in order, and the keys
left in `clients` (a key is deleted when its write fails). -/
def broadcastFrame (writeOk : Conn → List Byte → Bool) (frame : List Byte) :
    List Conn → List (Conn × List Byte) × List Conn
  | [] => ([], [])
  | client :: rest =>
    let r := broadcastFrame writeOk frame rest
    if writeOk client frame then ((client, frame) :: r.1, client :: r.2)
    else ((client, frame) :: r.1, r.2)

/-- A sequence of later calls of `broadcastFrame`, each with its write oracle and its
frame: all the write attempts made, in order, and the keys left in `clients`. -/
def broadcastFrames :
    List ((Conn → List Byte → Bool) × List Byte) → List Conn →
      List (Conn × List Byte) × List Conn
  | [], clients => ([], clients)
  | (writeOk, frame) :: later, clients =>
    let r := broadcastFrame writeOk frame clients
    let r2 := broadcastFrames later r.2
    (r.1 ++ r2.1, r2.2)

/-! ## Go library functions used by the server

`strings.HasSuffix`, `strings.Split`, `sort.Strings`, and `Clean`, `Join` and `Rel` of
`path/filepath` as they behave with the Unix separator. The path functions work on the
elements between separators, which is what the index loops of the library compute. -/

/-- `strings.HasSuffix(s, suffix)`. -/
def hasSuffix (s suffix : String) : Bool := suffix.toList.isSuffixOf s.toList

/-- The code points of a string; their lexicographic order is the byte order of the
UTF-8 encoding, which is how Go compares strings. -/
def codes (s : String) : List Nat := s.toList.map Char.toNat

/-- Go's `a <= b` on strings. -/
def goStringLE (a b : String) : Prop := codes a ≤ codes b

instance goStringLE_decidable : DecidableRel goStringLE :=
  fun a b => inferInstanceAs (Decidable (codes a ≤ codes b))

/-- `sort.Strings(files)`. -/
def sortStrings (files : List String) : List String := files.insertionSort goStringLE

/-- Go indexing `files[i]`: `none` is the run-time panic "index out of range". -/
def index (files : List String) (i : Int) : Option String :=
  if 0 ≤ i ∧ i < (files.length : Int) then files[i.toNat]? else none

/-- Joins path elements with the separator. -/
def joinSep (elems : List (List Char)) : List Char := List.intercalate ['/'] elems

/-- One path element in the loop of `filepath.Clean`: an empty element and `.` are
dropped; `..` removes the last element kept when there is one that is not itself `..`,
is dropped at the root of a rooted path, and is kept otherwise; any other element is
kept. -/
def cleanStep (rooted : Bool) (out : List (List Char)) (c : List Char) : List (List Char) :=
  if c = [] ∨ c = ['.'] then out
  else if c = ['.', '.'] then
    match out.getLast? with
    | some l => if l = ['.', '.'] then out ++ [c] else out.dropLast
    | none => if rooted then out else out ++ [c]
  else out ++ [c]

/-- `filepath.Clean(path)` on characters. -/
def cleanChars (path : List Char) : List Char :=
  if path = [] then ['.']
  else
    let rooted : Bool := path.head? = some '/'
    let out := (path.splitOn '/').foldl (cleanStep rooted) []
    if rooted then '/' :: joinSep out
    else if out = [] then ['.'] else joinSep out

/-- `filepath.Clean(path)`. -/
def filepathClean (path : String) : String := String.mk (cleanChars path.toList)

/-- `filepath.Join(elem...)`: leading empty elements are ignored, the rest is joined with
the separator and cleaned; the result is empty when every element is. -/
def filepathJoin (elem : List String) : String :=
  let rest := elem.dropWhile (fun e => e = "")
  if rest = [] then "" else String.mk (cleanChars (joinSep (rest.map String.toList)))

/-- The path `filepath.Rel` returns when elements of the base are left: one `..` for each
of them, then what is left of the target. -/
def relUp (base targ : List (List Char)) : List Char :=
  ['.', '.'] ++ (List.replicate ((joinSep base).count '/') ['/', '.', '.']).flatten
    ++ (if joinSep targ = [] then [] else '/' :: joinSep targ)

/-- The element-by-element walk of `filepath.Rel` over what is left of the cleaned base
and target: equal leading elements are skipped while both paths have something left;
at the first difference the base element `..` is the error "can't make relative"
(`none`). The server passes `AudioDir` as the base, which has no `..` element. -/
def relWalk : List (List Char) → List (List Char) → Option (List Char)
  | b :: bs, t :: ts =>
    if joinSep (b :: bs) = [] ∨ joinSep (t :: ts) = [] then
      (if joinSep (b :: bs) = [] then some (joinSep (t :: ts))
       else some (relUp (b :: bs) (t :: ts)))
    else if b = t then relWalk bs ts
    else if b = ['.', '.'] then none
    else some (relUp (b :: bs) (t :: ts))
  | base, targ =>
    if joinSep base = [] then some (joinSep targ) else some (relUp base targ)

/-- `filepath.Rel(basepath, targpath)` on characters. -/
def relChars (basepath targpath : List Char) : Option (List Char) :=
  let base := cleanChars basepath
  let targ := cleanChars targpath
  if targ = base then some ['.']
  else
    let base := if base = ['.'] then [] else base
    let baseSlashed : Bool := base.head? = some '/'
    let targSlashed : Bool := targ.head? = some '/'
    if baseSlashed ≠ targSlashed then none
    else relWalk (if base = [] then [] else base.splitOn '/')
      (if targ = [] then [] else targ.splitOn '/')

/-- `filepath.Rel(basepath, targpath)`; `none` is an error. -/
def filepathRel (basepath targpath : String) : Option String :=
  (relChars basepath.toList targpath.toList).map String.mk

/-- `strings.Split(s, "/")`. -/
def stringsSplit (s : String) : List String := (s.toList.splitOn '/').map String.mk

/-! ## The track catalog: `getTrackInfoFromPath` (lines 234-260), `loadTracks` (262-312) -/

/-- The answer of `os.Stat`: the file's size, or an error that `os.IsNotExist` accepts,
or any other error. -/
inductive StatResult where
  | info (size : Nat)
  | notExist
  | otherError
  deriving DecidableEq, Repr

/-- One entry returned by `os.ReadDir`: `Name()` and `IsDir()`. -/
structure DirEntry where
  Name : String
  IsDir : Bool
  deriving DecidableEq, Repr

/-- The answers of the file system: `os.ReadDir` (`none` is an error, as for a path that
is no directory) and `os.Stat`. -/
structure FileSystem where
  readDir : String → Option (List DirEntry)
  stat : String → StatResult

/-- The helper `glob(dir, "*.pcm", matches)` of `filepath.Glob`: nothing when `dir` is no
directory that can be read; otherwise the names of `dir`, sorted, that match `*.pcm`
(the star matches any run of characters of a name), each joined to `dir`. -/
def globFolder (fs : FileSystem) (dir : String) : List String :=
  match fs.readDir dir with
  | none => []
  | some files =>
    ((sortStrings (files.map (fun f => f.Name))).filter
      (fun n => hasSuffix n ".pcm")).map (fun n => filepathJoin [dir, n])

/-- `filepath.Glob(filepath.Join(AudioDir, "*", "*.pcm"))`: every name of the root, sorted,
matches the first star; `globFolder` lists each of them in turn. The pattern is well
formed, so the call returns no error. -/
def filepathGlob (fs : FileSystem) : List String :=
  match fs.readDir AudioDir with
  | none => []
  | some entries =>
    ((sortStrings (entries.map (fun e => e.Name))).map
      (fun d => globFolder fs (filepathJoin [AudioDir, d]))).flatten

/-- Type `Folder`. -/
structure Folder where
  Name : String
  TrackCount : Nat
  deriving DecidableEq, Repr

/-- Type `Track`; `Duration` is in seconds. -/
structure Track where
  Folder : String
  Name : String
  Duration : Nat
  deriving DecidableEq, Repr

/-- Type `TrackList`. -/
structure TrackList where
  Folders : List Folder
  Tracks : List Track
  deriving DecidableEq, Repr

/-- The errors of `getTrackInfoFromPath`. -/
inductive TrackError where
  | rel
  | invalid
  | stat
  deriving DecidableEq, Repr

deriving instance DecidableEq for Except

/-- Function `getTrackInfoFromPath(filePath)`. A file size is an `int64`, below `2^63`,
and `int` has 64 bits, so the division is the division of naturals. -/
def getTrackInfoFromPath (stat : String → StatResult) (filePath : String) :
    Except TrackError Track :=
  match filepathRel AudioDir filePath with
  | none => Except.error TrackError.rel
  | some relPath =>
    let parts := stringsSplit relPath
    if parts.length < 2 then Except.error TrackError.invalid
    else
      let folderName := parts.headD ""
      let trackName := parts.getLastD ""
      match stat filePath with
      | StatResult.info size =>
        Except.ok
          { Folder := folderName, Name := trackName,
            Duration := size / (SampleRate * BytesPerSample) }
      | _ => Except.error TrackError.stat

/-- The body of the inner loop of `loadTracks` for one entry `file` of a folder, on the
pair of `trackCount` and `folderTracks`. -/
def scanFile (stat : String → StatResult) (folderPath : String)
    (acc : Nat × List Track) (file : DirEntry) : Nat × List Track :=
  if file.IsDir ∨ ¬ hasSuffix file.Name ".pcm" then acc
  else
    match getTrackInfoFromPath stat (filepathJoin [folderPath, file.Name]) with
    | Except.error _ => acc
    | Except.ok track => (acc.1 + 1, acc.2 ++ [track])

/-- The body of the outer loop of `loadTracks` for one entry of the root. -/
def scanEntry (fs : FileSystem) (trackList : TrackList) (entry : DirEntry) : TrackList :=
  if ¬ entry.IsDir then trackList
  else
    let folderName := entry.Name
    let folderPath := filepathJoin [AudioDir, folderName]
    match fs.readDir folderPath with
    | none => trackList
    | some files =>
      let r := files.foldl (scanFile fs.stat folderPath) (0, [])
      { Folders := trackList.Folders ++ [{ Name := folderName, TrackCount := r.1 }],
        Tracks := trackList.Tracks ++ r.2 }

/-- Function `loadTracks()`; `none` is the error of reading the root. -/
def loadTracks (fs : FileSystem) : Option TrackList :=
  match fs.readDir AudioDir with
  | none => none
  | some entries => some (entries.foldl (scanEntry fs) { Folders := [], Tracks := [] })

/-! ## The pacing loop `streamAudioFiles` (lines 166-232) and `handlePlay` (345-379) -/

/-- The start of `streamAudioFiles` (lines 167-175), run once before the loop: the value
of `activeTrackPath` afterwards. -/
def seedActiveTrack (activeTrackPath : String) (glob : Option (List String)) : Option String :=
  if activeTrackPath = "" then
    match glob with
    | some files =>
      if files.length > 0 then index (sortStrings files) 0 else some activeTrackPath
    | none => some activeTrackPath
  else some activeTrackPath

/-- What one iteration of the `for` loop of `streamAudioFiles` does to `activeTrackPath`. -/
inductive IterationResult where
  /-- ActiveTrack is empty: sleep 3 s and `continue`; nothing is written. -/
  | idleWait
  /-- ActiveTrack was switched while the file played: nothing is written. -/
  | switched
  /-- `filepath.Glob` failed: sleep 3 s and `continue`; nothing is written. -/
  | globError
  /-- The assignment `activeTrackPath = path`. -/
  | write (path : String)
  /-- A run-time panic: the goroutine, and with it the process, dies. -/
  | panic
  deriving DecidableEq, Repr

/-- The index search of lines 205-211: the first index of `currentTrack`, or `-1`. -/
def findCurrentIndex (currentTrack : String) (files : List String) : Int :=
  if currentTrack ∈ files then (files.indexOf currentTrack : Int) else -1

/-- The auto-advance step (lines 196-230) for the list returned by `filepath.Glob`. -/
def autoAdvance (currentTrack : String) (globbed : List String) : IterationResult :=
  let files := sortStrings globbed
  let currentIndex := findCurrentIndex currentTrack files
  if currentIndex ≠ -1 ∧ currentIndex < (files.length : Int) - 1 then
    match index files (currentIndex + 1) with
    | some f => IterationResult.write f
    | none => IterationResult.panic
  else
    match index files 0 with
    | some f => if files.length = 0 then IterationResult.write "" else IterationResult.write f
    | none => IterationResult.panic

/-- One iteration of the `for` loop of `streamAudioFiles` (lines 178-230).
`currentTrack` is `activeTrackPath` as read at the top, `nextTrack` as read again after
`streamFile` has returned, `glob` the answer of `filepath.Glob`. The return value of
`streamFile` only decides a 2 s sleep, so it is no argument. -/
def loopIteration (currentTrack nextTrack : String) (glob : Option (List String)) :
    IterationResult :=
  if currentTrack = "" then IterationResult.idleWait
  else if currentTrack = nextTrack then
    match glob with
    | none => IterationResult.globError
    | some globbed => autoAdvance currentTrack globbed
  else IterationResult.switched

/-- The value of `activeTrackPath` after an iteration; `none` after a panic. -/
def afterIteration (activeTrackPath : String) : IterationResult → Option String
  | IterationResult.write path => some path
  | IterationResult.panic => none
  | _ => some activeTrackPath

/-- Type `PlayBody`. -/
structure PlayBody where
  Folder : String
  Track : String
  deriving DecidableEq, Repr

/-- The effect of one call of `handlePlay`: the HTTP status, the value of
`activeTrackPath` afterwards, and whether a value was received from `streamStopSignal`
by the pacing loop. -/
structure PlayEffect where
  status : Nat
  activeTrackPath : String
  stopDelivered : Bool
  deriving DecidableEq, Repr

/-- The path `handlePlay` computes (lines 353-356). -/
def playTarget (body : PlayBody) : String :=
  let targetPath := filepathJoin [AudioDir, body.Folder, body.Track]
  if ¬ hasSuffix targetPath ".pcm" then targetPath ++ ".pcm" else targetPath

/-- Function `handlePlay`. `body` is `none` when the request body does not decode.
`receiverWaiting` tells whether the pacing loop is blocked in the `select` of
`streamFile` at the moment of the send: `streamStopSignal` is made without a buffer, so
the send in a `select` with a `default` case goes through only then. -/
def handlePlay (stat : String → StatResult) (activeTrackPath : String)
    (receiverWaiting : Bool) (body : Option PlayBody) : PlayEffect :=
  match body with
  | none => { status := 400, activeTrackPath := activeTrackPath, stopDelivered := false }
  | some body =>
    let targetPath := playTarget body
    if stat targetPath = StatResult.notExist then
      { status := 404, activeTrackPath := activeTrackPath, stopDelivered := false }
    else
      let oldPath := activeTrackPath
      { status := 200, activeTrackPath := targetPath,
        stopDelivered := decide (oldPath ≠ targetPath ∧ oldPath ≠ "") && receiverWaiting }

/-! ## The pacing loop interleaved with `handlePlay`, step by step -/

/-- Where the loop of `streamFile` stands. -/
inductive LoopPhase where
  /-- Blocked in the `select`, ready to receive from `ticker.C` or `streamStopSignal`. -/
  | selecting
  /-- Inside `case <-ticker.C`, before the read and the broadcast. -/
  | ticking
  /-- Function `streamFile` has returned. -/
  | returned
  deriving DecidableEq, Repr

/-- The state shared by a running `streamFile(filePath)` and the handlers:
`broadcasts` lists, oldest first, each frame handed to `broadcastFrame` with the value
`activeTrackPath` had at that moment. -/
structure PacingState where
  activeTrackPath : String
  filePath : String
  rest : List Byte
  phase : LoopPhase
  broadcasts : List (String × List Byte)
  deriving DecidableEq, Repr

/-- One atomic step of the interleaving. -/
inductive Action where
  /-- The `select` receives from `ticker.C`. -/
  | tickFires
  /-- The body of `case <-ticker.C`: `io.ReadFull`, then the broadcast. -/
  | tickBody
  /-- A whole call of `handlePlay` with a body that decodes. -/
  | play (body : PlayBody)
  deriving DecidableEq, Repr

/-- The effect of one step; a step that is not enabled leaves the state as it is. -/
def step (stat : String → StatResult) (s : PacingState) : Action → PacingState
  | Action.tickFires =>
    if s.phase = LoopPhase.selecting then { s with phase := LoopPhase.ticking } else s
  | Action.tickBody =>
    if s.phase = LoopPhase.ticking then
      match readFull s.rest frameBytes with
      | (_, some ReadErr.eof, rest') => { s with rest := rest', phase := LoopPhase.returned }
      | (buf, some ReadErr.unexpectedEOF, rest') =>
        { s with
          rest := rest', phase := LoopPhase.returned,
          broadcasts :=
            if buf.length > 0 then s.broadcasts ++ [(s.activeTrackPath, buf)]
            else s.broadcasts }
      | (_, some ReadErr.other, rest') =>
        { s with rest := rest', phase := LoopPhase.returned }
      | (buf, none, rest') =>
        { s with
          rest := rest', phase := LoopPhase.selecting,
          broadcasts := s.broadcasts ++ [(s.activeTrackPath, buf)] }
    else s
  | Action.play body =>
    let e := handlePlay stat s.activeTrackPath
      (decide (s.phase = LoopPhase.selecting)) (some body)
    { s with
      activeTrackPath := e.activeTrackPath,
      phase := if e.stopDelivered then LoopPhase.returned else s.phase }

/-- A schedule of steps run from a state. -/
def run (stat : String → StatResult) (s : PacingState) (schedule : List Action) :
    PacingState :=
  schedule.foldl (step stat) s

/-- The steps of `k` iterations of the loop of `streamFile` that receive a tick. -/
def tickSteps : Nat → List Action
  | 0 => []
  | k + 1 => Action.tickFires :: Action.tickBody :: tickSteps k

/-- The frames of the streamed file that were broadcast while `activeTrackPath` held
another path. -/
def staleBroadcasts (s : PacingState) : List (String × List Byte) :=
  s.broadcasts.filter (fun b => decide (b.1 ≠ s.filePath))

/-! ## Predicates of the specification -/

instance goStringLE_total : IsTotal String goStringLE :=
  ⟨fun a b => le_total (codes a) (codes b)⟩

instance goStringLE_trans : IsTrans String goStringLE :=
  ⟨fun _ _ _ h1 h2 => le_trans h1 h2⟩

/-- A path lies under the catalog root: it starts with `AudioDir` and a separator. -/
def underAudioDir (path : String) : Bool := (AudioDir ++ "/").toList.isPrefixOf path.toList

/-- A path element a directory listing can hold: not empty, not `.` or `..`, and
without a separator. -/
def validElem (c : List Char) : Prop := c ≠ [] ∧ c ≠ ['.'] ∧ c ≠ ['.', '.'] ∧ '/' ∉ c

instance validElem_decidable (c : List Char) : Decidable (validElem c) :=
  inferInstanceAs (Decidable (c ≠ [] ∧ c ≠ ['.'] ∧ c ≠ ['.', '.'] ∧ '/' ∉ c))

/-- A name a directory listing can hold. -/
def validName (name : String) : Prop := validElem name.toList

instance validName_decidable (name : String) : Decidable (validName name) :=
  inferInstanceAs (Decidable (validElem name.toList))

/-- The number of qualifying files of a folder listing: the entries that are no
directory and whose name ends in `.pcm`. -/
def qualifyingCount (files : List DirEntry) : Nat :=
  (files.filter (fun f => !f.IsDir && hasSuffix f.Name ".pcm")).length

/-- The answer of `os.Stat` is a file description, not an error. -/
def StatResult.isInfo : StatResult → Bool
  | StatResult.info _ => true
  | _ => false

/-- A path names an entry that the listing of a folder of the root holds. -/
def listedInCatalog (fs : FileSystem) (path : String) : Prop :=
  ∃ e ∈ (fs.readDir AudioDir).getD [],
    ∃ f ∈ (fs.readDir (filepathJoin [AudioDir, e.Name])).getD [],
      path = filepathJoin [filepathJoin [AudioDir, e.Name], f.Name]

/-- The names in the listings of the root and of its folders are names a directory
listing can hold. -/
def catalogNamesValid (fs : FileSystem) : Prop :=
  ∀ e ∈ (fs.readDir AudioDir).getD [], validName e.Name ∧
    ∀ f ∈ (fs.readDir (filepathJoin [AudioDir, e.Name])).getD [], validName f.Name

instance catalogNamesValid_decidable (fs : FileSystem) : Decidable (catalogNamesValid fs) :=
  inferInstanceAs (Decidable (∀ e ∈ (fs.readDir AudioDir).getD [], validName e.Name ∧
    ∀ f ∈ (fs.readDir (filepathJoin [AudioDir, e.Name])).getD [], validName f.Name))

/-! ## Concrete inputs of the examples -/

/-- The entries of the root of the example catalog. -/
def exampleRoot : List DirEntry :=
  [{ Name := "F1", IsDir := true }, { Name := "F2", IsDir := true },
   { Name := "readme.txt", IsDir := false }]

/-- The listing of each folder of the example catalog. -/
def exampleListing (folderName : String) : List DirEntry :=
  if folderName = "F1" then
    [{ Name := "a.pcm", IsDir := false }, { Name := "b.pcm", IsDir := false }]
  else if folderName = "F2" then
    [{ Name := "c.pcm", IsDir := false }, { Name := "notes.txt", IsDir := false },
     { Name := "nested.pcm", IsDir := true }]
  else []

/-- An example catalog: every file has 960000 bytes. -/
def exampleCatalog : FileSystem where
  readDir := fun path =>
    if path = "audio/output" then some exampleRoot
    else if path = "audio/output/F1" then some (exampleListing "F1")
    else if path = "audio/output/F2" then some (exampleListing "F2")
    else none
  stat := fun _ => StatResult.info 960000

/-- The state in which `streamFile` streams track `a` of folder `F1`, three full frames
of which are unread, and waits in its `select`. -/
def switchStart : PacingState :=
  { activeTrackPath := "audio/output/F1/a.pcm", filePath := "audio/output/F1/a.pcm",
    rest := List.replicate frameBytes 1 ++ (List.replicate frameBytes 2
      ++ List.replicate frameBytes 3),
    phase := LoopPhase.selecting, broadcasts := [] }

/-- A schedule in which `handlePlay` runs while the loop is inside a tick. -/
def switchSchedule : List Action :=
  [Action.tickFires, Action.play { Folder := "F1", Track := "b" }, Action.tickBody,
   Action.tickFires, Action.tickBody, Action.tickFires, Action.tickBody]

/-- A file of two full frames and three more bytes. -/
def threeFrameFile : List Byte :=
  List.replicate frameBytes 1 ++ (List.replicate frameBytes 2 ++ [3, 4, 5])

/-- A write oracle: every write succeeds but the one to client 2. -/
def failsForTwo : Conn → List Byte → Bool := fun c _ => decide (c ≠ 2)

/-! ## Lemmas on `streamFile` -/

theorem frameBytes_eq : frameBytes = 1920 := by decide

theorem frameBytes_pos : 0 < frameBytes := by decide

/-- The frames of a run that only ticks, with more ticks than full frames in the file. -/
theorem streamLoop_ticks (k : Nat) :
    ∀ content : List Byte, content.length / frameBytes < k →
      (streamLoop (List.replicate k SelectEvent.tick) content).2 = StreamEnd.endOfFile ∧
      (streamLoop (List.replicate k SelectEvent.tick) content).1.flatten = content ∧
      (∀ f ∈ (streamLoop (List.replicate k SelectEvent.tick) content).1,
        0 < f.length ∧ f.length ≤ frameBytes) ∧
      (∀ f ∈ (streamLoop (List.replicate k SelectEvent.tick) content).1.dropLast,
        f.length = frameBytes) := by
  induction k with
  | zero => intro content h; exact absurd h (Nat.not_lt_zero _)
  | succ k ih =>
    intro content h
    have hpos := frameBytes_pos
    by_cases hfull : frameBytes ≤ content.length
    · have hlen : (content.take frameBytes).length = frameBytes := by
        simp [List.length_take, hfull]
      have hk : (content.drop frameBytes).length / frameBytes < k := by
        have h1 : (content.drop frameBytes).length = content.length - frameBytes := by simp
        have h2 : content.length / frameBytes
            = (content.length - frameBytes) / frameBytes + 1 := by
          have := Nat.sub_add_cancel hfull
          conv_lhs => rw [← this]
          exact Nat.add_div_right _ hpos
        rw [h1]
        omega
      obtain ⟨e1, e2, e3, e4⟩ := ih (content.drop frameBytes) hk
      have hs : streamLoop (List.replicate (k + 1) SelectEvent.tick) content
          = (content.take frameBytes ::
              (streamLoop (List.replicate k SelectEvent.tick) (content.drop frameBytes)).1,
             (streamLoop (List.replicate k SelectEvent.tick) (content.drop frameBytes)).2) := by
        simp [List.replicate_succ, streamLoop, readFull, hlen]
      rw [hs]
      refine ⟨e1, ?_, ?_, ?_⟩
      · simp [e2]
      · intro f hf
        rcases List.mem_cons.mp hf with rfl | hf
        · rw [hlen]; exact ⟨hpos, le_refl _⟩
        · exact e3 f hf
      · intro f hf
        cases hr : (streamLoop (List.replicate k SelectEvent.tick)
            (content.drop frameBytes)).1 with
        | nil => simp [hr] at hf
        | cons g gs =>
          simp only [hr, List.dropLast_cons₂] at hf
          rcases List.mem_cons.mp hf with rfl | hf
          · exact hlen
          · exact e4 f (by rw [hr]; exact hf)
    · have hlt : content.length < frameBytes := Nat.lt_of_not_le hfull
      have htake : content.take frameBytes = content :=
        List.take_of_length_le (Nat.le_of_lt hlt)
      cases content with
      | nil => simp [List.replicate_succ, streamLoop, readFull, (Nat.ne_of_lt hpos)]
      | cons b bs =>
        have hne : ¬ bs.length + 1 = frameBytes := by
          have := Nat.ne_of_lt hlt
          simpa using this
        have hs : streamLoop (List.replicate (k + 1) SelectEvent.tick) (b :: bs)
            = ([b :: bs], StreamEnd.endOfFile) := by
          simp [List.replicate_succ, streamLoop, readFull, htake, hne]
        rw [hs]
        refine ⟨rfl, by simp, ?_, by simp⟩
        intro f hf
        simp only [List.mem_singleton] at hf
        subst hf
        exact ⟨by simp, Nat.le_of_lt hlt⟩

/-- The lengths of the frames of a run that only ticks: one full frame for each
`frameBytes` bytes of the file, then one frame with the bytes left, if any. -/
theorem streamLoop_ticks_lengths (k : Nat) :
    ∀ content : List Byte, content.length / frameBytes < k →
      (streamLoop (List.replicate k SelectEvent.tick) content).1.map List.length
        = List.replicate (content.length / frameBytes) frameBytes
          ++ (if content.length % frameBytes = 0 then []
              else [content.length % frameBytes]) := by
  induction k with
  | zero => intro content h; exact absurd h (Nat.not_lt_zero _)
  | succ k ih =>
    intro content h
    have hpos := frameBytes_pos
    by_cases hfull : frameBytes ≤ content.length
    · have hlen : (content.take frameBytes).length = frameBytes := by
        simp [List.length_take, hfull]
      have h1 : (content.drop frameBytes).length = content.length - frameBytes := by simp
      have h2 : content.length / frameBytes
          = (content.length - frameBytes) / frameBytes + 1 := by
        have := Nat.sub_add_cancel hfull
        conv_lhs => rw [← this]
        exact Nat.add_div_right _ hpos
      have h3 : content.length % frameBytes = (content.length - frameBytes) % frameBytes := by
        have := Nat.sub_add_cancel hfull
        conv_lhs => rw [← this]
        exact Nat.add_mod_right _ _
      have hk : (content.drop frameBytes).length / frameBytes < k := by
        rw [h1]
        omega
      have hrec := ih (content.drop frameBytes) hk
      have hs : streamLoop (List.replicate (k + 1) SelectEvent.tick) content
          = (content.take frameBytes ::
              (streamLoop (List.replicate k SelectEvent.tick) (content.drop frameBytes)).1,
             (streamLoop (List.replicate k SelectEvent.tick) (content.drop frameBytes)).2) := by
        simp [List.replicate_succ, streamLoop, readFull, hlen]
      rw [hs, List.map_cons, hrec, hlen, h1, h2, h3, List.replicate_succ, List.cons_append]
    · have hlt : content.length < frameBytes := Nat.lt_of_not_le hfull
      have htake : content.take frameBytes = content :=
        List.take_of_length_le (Nat.le_of_lt hlt)
      have hdiv : content.length / frameBytes = 0 := Nat.div_eq_of_lt hlt
      have hmod : content.length % frameBytes = content.length := Nat.mod_eq_of_lt hlt
      cases content with
      | nil => simp [List.replicate_succ, streamLoop, readFull, (Nat.ne_of_lt hpos)]
      | cons b bs =>
        have hne : ¬ bs.length + 1 = frameBytes := by
          have := Nat.ne_of_lt hlt
          simpa using this
        have hs : streamLoop (List.replicate (k + 1) SelectEvent.tick) (b :: bs)
            = ([b :: bs], StreamEnd.endOfFile) := by
          simp [List.replicate_succ, streamLoop, readFull, htake, hne]
        rw [hs, hdiv, hmod]
        simp

theorem threeFrameFile_length : threeFrameFile.length = 3843 := by
  simp only [threeFrameFile, List.length_append, List.length_replicate, List.length_cons,
    List.length_nil, frameBytes_eq]

/-- C2: when `streamFile` streams the active file to its end (only ticks, more of them
than the file has full frames), it returns at the end of the file; every frame it
broadcast but the last has exactly `frameBytes` = 1920 bytes, the last has a length in
`(0, frameBytes]`, and an empty file gives no frame. The frames are there: their
lengths are `frameBytes` once for each full `frameBytes` bytes of the file and then the
number of bytes left, if any, so a file that is not empty gives at least one frame, and
together the frames hold the bytes of the file. -/
theorem streamFile_frame_lengths (activeTrackPath filePath : String)
    (openFile : String → Option (List Byte)) (content : List Byte) (k : Nat)
    (hactive : filePath = activeTrackPath) (hopen : openFile filePath = some content)
    (hk : content.length / frameBytes < k) :
    (streamFile activeTrackPath openFile (List.replicate k SelectEvent.tick) filePath).2
        = StreamEnd.endOfFile ∧
      frameBytes = 1920 ∧
      (∀ f ∈ (streamFile activeTrackPath openFile
          (List.replicate k SelectEvent.tick) filePath).1.dropLast, f.length = frameBytes) ∧
      (∀ f, (streamFile activeTrackPath openFile
          (List.replicate k SelectEvent.tick) filePath).1.getLast? = some f →
          0 < f.length ∧ f.length ≤ frameBytes) ∧
      (content.length = 0 → (streamFile activeTrackPath openFile
          (List.replicate k SelectEvent.tick) filePath).1 = []) ∧
      (streamFile activeTrackPath openFile
          (List.replicate k SelectEvent.tick) filePath).1.map List.length
        = List.replicate (content.length / frameBytes) frameBytes
          ++ (if content.length % frameBytes = 0 then []
              else [content.length % frameBytes]) ∧
      (streamFile activeTrackPath openFile
          (List.replicate k SelectEvent.tick) filePath).1.length
        = content.length / frameBytes
          + (if content.length % frameBytes = 0 then 0 else 1) ∧
      (content ≠ [] → (streamFile activeTrackPath openFile
          (List.replicate k SelectEvent.tick) filePath).1 ≠ []) ∧
      (streamFile activeTrackPath openFile
          (List.replicate k SelectEvent.tick) filePath).1.flatten = content := by
  obtain ⟨e1, e2, e3, e4⟩ := streamLoop_ticks k content hk
  have e5 := streamLoop_ticks_lengths k content hk
  have hs : streamFile activeTrackPath openFile (List.replicate k SelectEvent.tick) filePath
      = streamLoop (List.replicate k SelectEvent.tick) content := by
    subst hactive
    simp [streamFile, hopen]
  rw [hs]
  refine ⟨e1, frameBytes_eq, e4, ?_, ?_, e5, ?_, ?_, e2⟩
  · intro f hf
    exact e3 f (List.mem_of_getLast?_eq_some hf)
  · intro h0
    have hnil : content = [] := List.length_eq_zero.mp h0
    cases hr : (streamLoop (List.replicate k SelectEvent.tick) content).1 with
    | nil => rfl
    | cons g gs =>
      have hg := (e3 g (by rw [hr]; exact List.mem_cons_self _ _)).1
      have hflat := e2
      rw [hr, hnil] at hflat
      simp only [List.flatten_cons, List.append_eq_nil] at hflat
      rw [hflat.1] at hg
      exact absurd hg (by simp)
  · have hl := congrArg List.length e5
    rw [List.length_map] at hl
    rw [hl]
    by_cases hm : content.length % frameBytes = 0 <;> simp [hm]
  · intro hne hnil
    rw [hnil] at e2
    exact hne (by simpa using e2.symm)

/-- Witness of C2: a file of two full frames and three more bytes, read in three
ticks. -/
theorem streamFile_frame_lengths_witness :
    (streamFile "a" (fun _ => some threeFrameFile) (List.replicate 3 SelectEvent.tick) "a").2
        = StreamEnd.endOfFile ∧
      frameBytes = 1920 ∧
      (∀ f ∈ (streamFile "a" (fun _ => some threeFrameFile)
          (List.replicate 3 SelectEvent.tick) "a").1.dropLast, f.length = frameBytes) ∧
      (∀ f, (streamFile "a" (fun _ => some threeFrameFile)
          (List.replicate 3 SelectEvent.tick) "a").1.getLast? = some f →
          0 < f.length ∧ f.length ≤ frameBytes) ∧
      (threeFrameFile.length = 0 → (streamFile "a" (fun _ => some threeFrameFile)
          (List.replicate 3 SelectEvent.tick) "a").1 = []) ∧
      (streamFile "a" (fun _ => some threeFrameFile)
          (List.replicate 3 SelectEvent.tick) "a").1.map List.length
        = List.replicate (threeFrameFile.length / frameBytes) frameBytes
          ++ (if threeFrameFile.length % frameBytes = 0 then []
              else [threeFrameFile.length % frameBytes]) ∧
      (streamFile "a" (fun _ => some threeFrameFile)
          (List.replicate 3 SelectEvent.tick) "a").1.length
        = threeFrameFile.length / frameBytes
          + (if threeFrameFile.length % frameBytes = 0 then 0 else 1) ∧
      (threeFrameFile ≠ [] → (streamFile "a" (fun _ => some threeFrameFile)
          (List.replicate 3 SelectEvent.tick) "a").1 ≠ []) ∧
      (streamFile "a" (fun _ => some threeFrameFile)
          (List.replicate 3 SelectEvent.tick) "a").1.flatten = threeFrameFile :=
  streamFile_frame_lengths "a" "a" (fun _ => some threeFrameFile) threeFrameFile 3 rfl rfl
    (by rw [threeFrameFile_length]; decide)

/-- The frames of the file of the example: two of 1920 bytes, then one of 3. -/
theorem threeFrameFile_frames :
    (streamFile "a" (fun _ => some threeFrameFile)
        (List.replicate 3 SelectEvent.tick) "a").1.map List.length = [1920, 1920, 3] := by
  have hs : streamFile "a" (fun _ => some threeFrameFile)
      (List.replicate 3 SelectEvent.tick) "a"
      = streamLoop (List.replicate 3 SelectEvent.tick) threeFrameFile := by
    simp [streamFile]
  rw [hs, streamLoop_ticks_lengths 3 threeFrameFile (by rw [threeFrameFile_length]; decide),
    threeFrameFile_length, frameBytes_eq]
  decide

/-- C3: when `streamFile` streams the active file to its end, the frames it broadcast,
concatenated in the order of broadcast, are the bytes of the file: none is dropped,
repeated or moved. -/
theorem streamFile_frames_in_file_order (activeTrackPath filePath : String)
    (openFile : String → Option (List Byte)) (content : List Byte) (k : Nat)
    (hactive : filePath = activeTrackPath) (hopen : openFile filePath = some content)
    (hk : content.length / frameBytes < k) :
    (streamFile activeTrackPath openFile (List.replicate k SelectEvent.tick) filePath).2
        = StreamEnd.endOfFile ∧
      (streamFile activeTrackPath openFile
        (List.replicate k SelectEvent.tick) filePath).1.flatten = content := by
  obtain ⟨e1, e2, _, _⟩ := streamLoop_ticks k content hk
  have hs : streamFile activeTrackPath openFile (List.replicate k SelectEvent.tick) filePath
      = streamLoop (List.replicate k SelectEvent.tick) content := by
    subst hactive
    simp [streamFile, hopen]
  rw [hs]
  exact ⟨e1, e2⟩

/-- Witness of C3: a file of three bytes, read in one tick. -/
theorem streamFile_frames_in_file_order_witness :
    (streamFile "a" (fun _ => some [1, 2, 3]) (List.replicate 1 SelectEvent.tick) "a").2
        = StreamEnd.endOfFile ∧
      (streamFile "a" (fun _ => some [1, 2, 3])
        (List.replicate 1 SelectEvent.tick) "a").1.flatten = [1, 2, 3] :=
  streamFile_frames_in_file_order "a" "a" (fun _ => some [1, 2, 3]) [1, 2, 3] 1 rfl rfl
    (by decide)

/-! ## The client registry -/

theorem broadcastFrame_attempts (writeOk : Conn → List Byte → Bool) (frame : List Byte)
    (clients : List Conn) :
    (broadcastFrame writeOk frame clients).1 = clients.map (fun c => (c, frame)) := by
  induction clients with
  | nil => rfl
  | cons c cs ih =>
    by_cases h : writeOk c frame = true <;> simp [broadcastFrame, h, ih]

theorem broadcastFrame_clients (writeOk : Conn → List Byte → Bool) (frame : List Byte)
    (clients : List Conn) :
    (broadcastFrame writeOk frame clients).2 = clients.filter (fun c => writeOk c frame) := by
  induction clients with
  | nil => rfl
  | cons c cs ih =>
    by_cases h : writeOk c frame = true <;> simp [broadcastFrame, h, ih]

theorem count_attempt (frame : List Byte) (c : Conn) (clients : List Conn) :
    (clients.map (fun d => (d, frame))).count (c, frame) = clients.count c := by
  induction clients with
  | nil => rfl
  | cons d ds ih =>
    by_cases h : d = c
    · subst h; simp [ih]
    · have h2 : ¬ (d, frame) = (c, frame) := fun e => h (congrArg Prod.fst e)
      simp only [List.map_cons, List.count_cons, ih]
      simp [h, h2]

/-- Later broadcasts attempt writes to clients of the set they start from only. -/
theorem broadcastFrames_attempts_mem
    (later : List ((Conn → List Byte → Bool) × List Byte)) :
    ∀ clients : List Conn, ∀ a ∈ (broadcastFrames later clients).1, a.1 ∈ clients := by
  induction later with
  | nil => intro clients a ha; simp [broadcastFrames] at ha
  | cons wf later ih =>
    intro clients a ha
    obtain ⟨w, f⟩ := wf
    simp only [broadcastFrames, List.mem_append] at ha
    rcases ha with ha | ha
    · rw [broadcastFrame_attempts] at ha
      obtain ⟨c, hc, rfl⟩ := List.mem_map.mp ha
      exact hc
    · have := ih _ a ha
      rw [broadcastFrame_clients] at this
      exact (List.mem_filter.mp this).1

/-- C4: `broadcastFrame` attempts one write of the frame to each client of the set and
to no one else, and the set afterwards is the clients whose write succeeded; so a
client whose write failed gets no attempt in any later broadcast until it registers
again, while every other client of the set gets its attempt in the next broadcast. -/
theorem broadcastFrame_one_attempt_each (writeOk : Conn → List Byte → Bool)
    (frame : List Byte) (clients : List Conn)
    (later : List ((Conn → List Byte → Bool) × List Byte))
    (writeOk2 : Conn → List Byte → Bool) (frame2 : List Byte)
    (hkeys : clients.Nodup) :
    (∀ c, ((broadcastFrame writeOk frame clients).1.count (c, frame)
        = if c ∈ clients then 1 else 0)) ∧
      (∀ a ∈ (broadcastFrame writeOk frame clients).1, a.1 ∈ clients ∧ a.2 = frame) ∧
      (broadcastFrame writeOk frame clients).2
        = clients.filter (fun c => writeOk c frame) ∧
      (∀ c, c ∈ (broadcastFrame writeOk frame clients).2
        ↔ c ∈ clients ∧ writeOk c frame = true) ∧
      (∀ c, c ∈ clients → writeOk c frame = false →
        (∀ a ∈ (broadcastFrames later (broadcastFrame writeOk frame clients).2).1,
          a.1 ≠ c) ∧
        (c, frame2) ∈ (broadcastFrame writeOk2 frame2
          (registerClient c (broadcastFrame writeOk frame clients).2)).1) ∧
      (∀ c, c ∈ clients → writeOk c frame = true →
        (broadcastFrame writeOk2 frame2
          (broadcastFrame writeOk frame clients).2).1.count (c, frame2) = 1) := by
  refine ⟨?_, ?_, broadcastFrame_clients _ _ _, ?_, ?_, ?_⟩
  · intro c
    rw [broadcastFrame_attempts, count_attempt]
    by_cases hc : c ∈ clients
    · simp [hc, List.count_eq_one_of_mem hkeys hc]
    · simp [hc, List.count_eq_zero_of_not_mem hc]
  · intro a ha
    rw [broadcastFrame_attempts] at ha
    obtain ⟨c, hc, rfl⟩ := List.mem_map.mp ha
    exact ⟨hc, rfl⟩
  · intro c
    rw [broadcastFrame_clients]
    simp
  · intro c _ hfail
    constructor
    · intro a ha hac
      have hmem := broadcastFrames_attempts_mem later _ a ha
      rw [broadcastFrame_clients, hac] at hmem
      have := (List.mem_filter.mp hmem).2
      simp [hfail] at this
    · rw [broadcastFrame_attempts, broadcastFrame_clients]
      simp [registerClient, hfail]
  · intro c hc hok
    rw [broadcastFrame_attempts, broadcastFrame_clients, count_attempt]
    exact List.count_eq_one_of_mem (hkeys.filter _) (by simp [hc, hok])

/-- Witness of C4: three clients, the write to client 2 fails; two broadcasts follow. -/
theorem broadcastFrame_one_attempt_each_witness :
    (∀ c : Conn, ((broadcastFrame failsForTwo [7] [1, 2, 3]).1.count (c, [7])
        = if c ∈ [1, 2, 3] then 1 else 0)) ∧
      (∀ a ∈ (broadcastFrame failsForTwo [7] [1, 2, 3]).1, a.1 ∈ [1, 2, 3] ∧ a.2 = [7]) ∧
      (broadcastFrame failsForTwo [7] [1, 2, 3]).2
        = [1, 2, 3].filter (fun c => failsForTwo c [7]) ∧
      (∀ c : Conn, c ∈ (broadcastFrame failsForTwo [7] [1, 2, 3]).2
        ↔ c ∈ [1, 2, 3] ∧ failsForTwo c [7] = true) ∧
      (∀ c : Conn, c ∈ [1, 2, 3] → failsForTwo c [7] = false →
        (∀ a ∈ (broadcastFrames [(fun _ _ => true, [8]), (fun _ _ => true, [9])]
            (broadcastFrame failsForTwo [7] [1, 2, 3]).2).1, a.1 ≠ c) ∧
        (c, [8]) ∈ (broadcastFrame (fun _ _ => true) [8]
          (registerClient c (broadcastFrame failsForTwo [7] [1, 2, 3]).2)).1) ∧
      (∀ c : Conn, c ∈ [1, 2, 3] → failsForTwo c [7] = true →
        (broadcastFrame (fun _ _ => true) [8]
          (broadcastFrame failsForTwo [7] [1, 2, 3]).2).1.count (c, [8]) = 1) :=
  broadcastFrame_one_attempt_each failsForTwo [7] [1, 2, 3]
    [(fun _ _ => true, [8]), (fun _ _ => true, [9])] (fun _ _ => true) [8] (by decide)

/-! ## The auto-advance step -/

theorem index_of_lt (files : List String) (i : Nat) (h : i < files.length) :
    index files (i : Int) = files[i]? := by
  have h1 : (0 : Int) ≤ (i : Int) ∧ (i : Int) < (files.length : Int) :=
    ⟨Int.ofNat_nonneg i, Int.ofNat_lt.mpr h⟩
  simp [index, h1]

theorem findCurrentIndex_of_getElem (files : List String) (hnodup : files.Nodup) (i : Nat)
    (h : i < files.length) : findCurrentIndex files[i] files = (i : Int) := by
  have hmem : files[i] ∈ files := List.getElem_mem h
  simp [findCurrentIndex, hmem, List.indexOf_getElem hnodup i h]

/-- The auto-advance step on a sorted list without duplicates that holds the current
track at index `i`. -/
theorem autoAdvance_sorted (files : List String) (i : Nat) (h : i < files.length)
    (hsorted : files.Sorted goStringLE) (hnodup : files.Nodup) :
    autoAdvance files[i] files
      = IterationResult.write
          (files.get ⟨(i + 1) % files.length, Nat.mod_lt _ (by omega)⟩) := by
  have hs : sortStrings files = files := List.Sorted.insertionSort_eq hsorted
  have hidx := findCurrentIndex_of_getElem files hnodup i h
  by_cases hlast : i + 1 < files.length
  · have hcond : (i : Int) ≠ -1 ∧ (i : Int) < (files.length : Int) - 1 := by
      constructor <;> omega
    have hnext : index files ((i : Int) + 1) = some files[i + 1] := by
      have := index_of_lt files (i + 1) hlast
      rw [List.getElem?_eq_getElem hlast] at this
      simpa using this
    simp only [autoAdvance, hs, hidx, hcond, and_self, if_true, hnext]
    simp [Nat.mod_eq_of_lt hlast]
  · have hlen : i + 1 = files.length := by omega
    have hcond : ¬ ((i : Int) ≠ -1 ∧ (i : Int) < (files.length : Int) - 1) := by
      intro hc
      omega
    have hpos : 0 < files.length := by omega
    have hfirst : index files 0 = some files[0] := by
      have := index_of_lt files 0 hpos
      rw [List.getElem?_eq_getElem hpos] at this
      simpa using this
    have hne : ¬ files.length = 0 := by omega
    simp only [autoAdvance, hs, hidx, hcond, if_false, hfirst, hne]
    congr 1
    simp [← hlen]

/-- C1: on a non-empty, sorted list of catalog paths without duplicates whose index `i`
holds the current track, the auto-advance step writes the path at index
`(i+1) mod len(files)` to ActiveTrack, and so does the loop iteration in which the
current track is still the active one. -/
theorem autoAdvance_selects_next_wrapping (files : List String) (currentTrack : String)
    (i : Nat) (hne : files ≠ []) (hsorted : files.Sorted goStringLE) (hnodup : files.Nodup)
    (hcur : files[i]? = some currentTrack) :
    ∃ next, files[(i + 1) % files.length]? = some next ∧
      autoAdvance currentTrack files = IterationResult.write next ∧
      (currentTrack ≠ "" →
        loopIteration currentTrack currentTrack (some files) = IterationResult.write next ∧
        afterIteration currentTrack (loopIteration currentTrack currentTrack (some files))
          = some next) := by
  obtain ⟨h, hget⟩ := List.getElem?_eq_some_iff.mp hcur
  have hmod : (i + 1) % files.length < files.length :=
    Nat.mod_lt _ (List.length_pos.mpr hne)
  refine ⟨files.get ⟨(i + 1) % files.length, hmod⟩, ?_, ?_, ?_⟩
  · simp [List.getElem?_eq_getElem hmod]
  · rw [← hget]
    exact autoAdvance_sorted files i h hsorted hnodup
  · intro hactive
    have hadv : autoAdvance currentTrack files
        = IterationResult.write (files.get ⟨(i + 1) % files.length, hmod⟩) := by
      rw [← hget]
      exact autoAdvance_sorted files i h hsorted hnodup
    simp [loopIteration, hactive, hadv, afterIteration]

/-- Witness of C1: the catalog `[A, B]`; the end of `B` wraps to `A`. -/
theorem autoAdvance_selects_next_wrapping_witness :
    ∃ next, ["audio/output/f/A.pcm", "audio/output/f/B.pcm"][(1 + 1) %
        ["audio/output/f/A.pcm", "audio/output/f/B.pcm"].length]? = some next ∧
      autoAdvance "audio/output/f/B.pcm" ["audio/output/f/A.pcm", "audio/output/f/B.pcm"]
        = IterationResult.write next ∧
      ("audio/output/f/B.pcm" ≠ "" →
        loopIteration "audio/output/f/B.pcm" "audio/output/f/B.pcm"
            (some ["audio/output/f/A.pcm", "audio/output/f/B.pcm"])
          = IterationResult.write next ∧
        afterIteration "audio/output/f/B.pcm"
            (loopIteration "audio/output/f/B.pcm" "audio/output/f/B.pcm"
              (some ["audio/output/f/A.pcm", "audio/output/f/B.pcm"]))
          = some next) :=
  autoAdvance_selects_next_wrapping ["audio/output/f/A.pcm", "audio/output/f/B.pcm"]
    "audio/output/f/B.pcm" 1 (by decide) (by decide) (by decide) (by decide)

/-- The catalog `[A, B]`: the end of `A` selects `B`, the end of `B` wraps to `A`. -/
theorem autoAdvance_two_tracks :
    autoAdvance "audio/output/f/A.pcm" ["audio/output/f/A.pcm", "audio/output/f/B.pcm"]
        = IterationResult.write "audio/output/f/B.pcm" ∧
      autoAdvance "audio/output/f/B.pcm" ["audio/output/f/A.pcm", "audio/output/f/B.pcm"]
        = IterationResult.write "audio/output/f/A.pcm" := by
  decide

/-- C6, the code at the failing input: the only track has ended, ActiveTrack is
unchanged and the catalog is now empty; line 220 indexes `files[0]` before line 223
tests `len(files) == 0`, so the iteration panics and ActiveTrack is never set to the
empty string. -/
theorem autoAdvance_empty_catalog_panics :
    autoAdvance "audio/output/f/A.pcm" [] = IterationResult.panic ∧
      loopIteration "audio/output/f/A.pcm" "audio/output/f/A.pcm" (some [])
        = IterationResult.panic ∧
      afterIteration "audio/output/f/A.pcm"
        (loopIteration "audio/output/f/A.pcm" "audio/output/f/A.pcm" (some [])) = none ∧
      afterIteration "audio/output/f/A.pcm"
        (loopIteration "audio/output/f/A.pcm" "audio/output/f/A.pcm" (some [])) ≠ some "" := by
  decide

/-! ## The idle engine -/

/-- The first element of the sorted list is a least element of the list. -/
theorem sortStrings_head_least (files : List String) (hne : files ≠ []) :
    ∃ first, index (sortStrings files) 0 = some first ∧ first ∈ files ∧
      ∀ f ∈ files, goStringLE first f := by
  have hperm : (sortStrings files).Perm files := List.perm_insertionSort goStringLE files
  have hsorted : (sortStrings files).Sorted goStringLE :=
    List.sorted_insertionSort goStringLE files
  cases hs : sortStrings files with
  | nil =>
    rw [hs] at hperm
    exact absurd (List.Perm.nil_eq hperm) (fun h => hne h.symm)
  | cons a rest =>
    rw [hs] at hperm hsorted
    refine ⟨a, by simp [index], hperm.subset (List.mem_cons_self a rest), ?_⟩
    intro f hf
    have hf2 : f ∈ a :: rest := hperm.symm.subset hf
    rcases List.mem_cons.mp hf2 with rfl | hmem
    · exact le_refl (codes f)
    · exact (List.sorted_cons.mp hsorted).1 f hmem

/-- C7 as stated fails: an iteration of the loop that finds ActiveTrack empty while the
catalog holds a track writes nothing, and ActiveTrack stays empty. -/
theorem loopIteration_idle_ignores_catalog :
    loopIteration "" "" (some ["audio/output/f/A.pcm"]) = IterationResult.idleWait ∧
      loopIteration "" "" (some ["audio/output/f/A.pcm"])
        ≠ IterationResult.write "audio/output/f/A.pcm" ∧
      afterIteration "" (loopIteration "" "" (some ["audio/output/f/A.pcm"])) = some "" := by
  decide

/-- C7 amended: the seed that runs once before the loop sets an empty ActiveTrack to
the lexicographically first path of a non-empty catalog and leaves it empty when the
catalog is empty or the listing fails; an iteration of the loop that finds ActiveTrack
empty writes nothing whatever the catalog holds, so ActiveTrack stays empty until a
set-track call stores a path. -/
theorem idle_seeds_once_then_waits (globbed : List String) (glob : Option (List String))
    (nextTrack : String) (stat : String → StatResult) (receiverWaiting : Bool)
    (body : PlayBody) (hne : globbed ≠ [])
    (hstat : stat (playTarget body) ≠ StatResult.notExist) :
    (∃ first, seedActiveTrack "" (some globbed) = some first ∧ first ∈ globbed ∧
        ∀ f ∈ globbed, goStringLE first f) ∧
      seedActiveTrack "" (some []) = some "" ∧
      seedActiveTrack "" none = some "" ∧
      loopIteration "" nextTrack glob = IterationResult.idleWait ∧
      afterIteration "" (loopIteration "" nextTrack glob) = some "" ∧
      (handlePlay stat "" receiverWaiting (some body)).activeTrackPath = playTarget body := by
  refine ⟨?_, by decide, by decide, by simp [loopIteration], by simp [loopIteration, afterIteration], ?_⟩
  · obtain ⟨first, h1, h2, h3⟩ := sortStrings_head_least globbed hne
    have hlen : 0 < globbed.length := List.length_pos.mpr hne
    exact ⟨first, by simp [seedActiveTrack, hlen, h1], h2, h3⟩
  · simp [handlePlay, hstat]

/-- Witness of C7 amended: a catalog of two tracks, listed out of order. -/
theorem idle_seeds_once_then_waits_witness :
    (∃ first, seedActiveTrack "" (some ["audio/output/f/B.pcm", "audio/output/f/A.pcm"])
          = some first ∧
        first ∈ ["audio/output/f/B.pcm", "audio/output/f/A.pcm"] ∧
        ∀ f ∈ ["audio/output/f/B.pcm", "audio/output/f/A.pcm"], goStringLE first f) ∧
      seedActiveTrack "" (some []) = some "" ∧
      seedActiveTrack "" none = some "" ∧
      loopIteration "" "" (some ["audio/output/f/A.pcm"]) = IterationResult.idleWait ∧
      afterIteration "" (loopIteration "" "" (some ["audio/output/f/A.pcm"])) = some "" ∧
      (handlePlay (fun _ => StatResult.info 0) "" false
        (some { Folder := "f", Track := "A" })).activeTrackPath
          = playTarget { Folder := "f", Track := "A" } :=
  idle_seeds_once_then_waits ["audio/output/f/B.pcm", "audio/output/f/A.pcm"]
    (some ["audio/output/f/A.pcm"]) "" (fun _ => StatResult.info 0) false
    { Folder := "f", Track := "A" } (by decide) (by decide)

/-! ## Paths of the catalog -/

theorem cleanStep_valid (rooted : Bool) (out : List (List Char)) (c : List Char)
    (h : validElem c) : cleanStep rooted out c = out ++ [c] := by
  obtain ⟨h1, h2, h3, _⟩ := h
  simp [cleanStep, h1, h2, h3]

theorem foldl_cleanStep_valid (rooted : Bool) (cs : List (List Char)) :
    ∀ out : List (List Char), (∀ c ∈ cs, validElem c) →
      cs.foldl (cleanStep rooted) out = out ++ cs := by
  induction cs with
  | nil => intro out _; simp
  | cons c cs ih =>
    intro out h
    rw [List.foldl_cons, cleanStep_valid rooted out c (h c (List.mem_cons_self c cs)),
      ih _ (fun d hd => h d (List.mem_cons_of_mem c hd))]
    simp

theorem joinSep_cons_cons (a b : List Char) (cs : List (List Char)) :
    joinSep (a :: b :: cs) = a ++ '/' :: joinSep (b :: cs) := by
  simp [joinSep, List.intercalate, List.intersperse]

theorem joinSep_singleton (a : List Char) : joinSep [a] = a := by
  simp [joinSep, List.intercalate, List.intersperse]

theorem joinSep_head (c : List Char) (cs : List (List Char)) (hc : validElem c) :
    joinSep (c :: cs) ≠ [] ∧ (joinSep (c :: cs)).head? ≠ some '/' := by
  obtain ⟨h1, _, _, h4⟩ := hc
  cases c with
  | nil => exact absurd rfl h1
  | cons x xs =>
    have hx : x ≠ '/' := fun e => h4 (by simp [e])
    cases cs with
    | nil => simp [joinSep_singleton, hx]
    | cons b bs => simp [joinSep_cons_cons, hx]

theorem splitOn_joinSep (cs : List (List Char)) (hne : cs ≠ [])
    (h : ∀ c ∈ cs, validElem c) : (joinSep cs).splitOn '/' = cs :=
  List.splitOn_intercalate cs '/' (fun c hc => (h c hc).2.2.2) hne

theorem cleanChars_joinSep (cs : List (List Char)) (hne : cs ≠ [])
    (h : ∀ c ∈ cs, validElem c) : cleanChars (joinSep cs) = joinSep cs := by
  cases cs with
  | nil => exact absurd rfl hne
  | cons c rest =>
    obtain ⟨h1, h2⟩ := joinSep_head c rest (h c (List.mem_cons_self c rest))
    have hrooted : decide ((joinSep (c :: rest)).head? = some '/') = false := by
      simp [h2]
    simp only [cleanChars, h1, if_false, hrooted, splitOn_joinSep (c :: rest) hne h,
      foldl_cleanStep_valid false (c :: rest) [] h]
    simp


theorem audioDir_elems : AudioDir.toList = joinSep ["audio".toList, "output".toList] := by
  decide

theorem valid_audio : validElem "audio".toList := by
  decide

theorem valid_output : validElem "output".toList := by
  decide

theorem valid_under_root (cs : List (List Char)) (h : ∀ c ∈ cs, validElem c) :
    ∀ c ∈ "audio".toList :: "output".toList :: cs, validElem c := by
  intro c hc
  rcases List.mem_cons.mp hc with rfl | hc
  · exact valid_audio
  · rcases List.mem_cons.mp hc with rfl | hc
    · exact valid_output
    · exact h c hc

theorem filepathJoin_pair (a b : String) (ha : ¬ a = "") :
    filepathJoin [a, b] = String.mk (cleanChars (joinSep [a.toList, b.toList])) := by
  simp [filepathJoin, List.dropWhile, ha]

/-- `filepath.Join(AudioDir, folderName)` for a valid folder name. -/
theorem filepathJoin_folder (d : String) (hd : validElem d.toList) :
    filepathJoin [AudioDir, d]
      = String.mk (joinSep ["audio".toList, "output".toList, d.toList]) := by
  have hA : ¬ AudioDir = "" := by decide
  have hclean := cleanChars_joinSep ["audio".toList, "output".toList, d.toList]
    (by simp) (valid_under_root [d.toList] (by simpa using hd))
  have hj : joinSep [AudioDir.toList, d.toList]
      = joinSep ["audio".toList, "output".toList, d.toList] := by
    rw [audioDir_elems]
    simp [joinSep_cons_cons, joinSep_singleton]
  rw [filepathJoin_pair _ _ hA, hj, hclean]

/-- `filepath.Join(folderPath, file.Name())` for valid names. -/
theorem filepathJoin_file (d f : String) (hd : validElem d.toList) (hf : validElem f.toList) :
    filepathJoin [filepathJoin [AudioDir, d], f]
      = String.mk (joinSep ["audio".toList, "output".toList, d.toList, f.toList]) := by
  rw [filepathJoin_folder d hd]
  have hA : ¬ String.mk (joinSep ["audio".toList, "output".toList, d.toList]) = "" := by
    intro h
    have := congrArg String.toList h
    simp [joinSep_cons_cons] at this
  have hclean := cleanChars_joinSep ["audio".toList, "output".toList, d.toList, f.toList]
    (by simp) (valid_under_root [d.toList, f.toList] (by
      intro c hc
      simp only [List.mem_cons, List.mem_singleton, List.not_mem_nil, or_false] at hc
      rcases hc with rfl | rfl
      · exact hd
      · exact hf))
  have hj : joinSep [joinSep ["audio".toList, "output".toList, d.toList], f.toList]
      = joinSep ["audio".toList, "output".toList, d.toList, f.toList] := by
    simp [joinSep_cons_cons, joinSep_singleton]
  rw [filepathJoin_pair _ _ hA]
  show String.mk (cleanChars (joinSep
    [joinSep ["audio".toList, "output".toList, d.toList], f.toList])) = _
  rw [hj, hclean]


theorem relWalk_common (a o d f : List Char) (ha : a ≠ []) (ho : o ≠ []) :
    relWalk [a, o] [a, o, d, f] = some (joinSep [d, f]) := by
  have h1 : ¬ joinSep [a, o] = [] := by simp [joinSep_cons_cons]
  have h2 : ¬ joinSep [o] = [] := by simp [joinSep_singleton, ho]
  have h3 : ¬ joinSep [a, o, d, f] = [] := by simp [joinSep_cons_cons]
  have h4 : ¬ joinSep [o, d, f] = [] := by simp [joinSep_cons_cons]
  have h5 : joinSep [] = [] := rfl
  have _ := ha
  simp [relWalk, h1, h2, h3, h4, h5]

theorem relWalk_under_root (d f : List Char) :
    relWalk ["audio".toList, "output".toList] ["audio".toList, "output".toList, d, f]
      = some (joinSep [d, f]) :=
  relWalk_common _ _ d f (by decide) (by decide)

/-- `filepath.Rel(AudioDir, filePath)` for the path of a file of a folder. -/
theorem filepathRel_catalog (d f : String) (hd : validElem d.toList)
    (hf : validElem f.toList) :
    filepathRel AudioDir
        (String.mk (joinSep ["audio".toList, "output".toList, d.toList, f.toList]))
      = some (String.mk (joinSep [d.toList, f.toList])) := by
  have hall : ∀ c ∈ ["audio".toList, "output".toList, d.toList, f.toList], validElem c :=
    valid_under_root [d.toList, f.toList] (by
      intro c hc
      simp only [List.mem_cons, List.mem_singleton, List.not_mem_nil, or_false] at hc
      rcases hc with rfl | rfl
      · exact hd
      · exact hf)
  have hbase : cleanChars AudioDir.toList = joinSep ["audio".toList, "output".toList] := by
    decide
  have htarg := cleanChars_joinSep _ (by simp) hall
  have hsplitB : (joinSep ["audio".toList, "output".toList]).splitOn '/'
      = ["audio".toList, "output".toList] := by decide
  have hsplitT := splitOn_joinSep _ (by simp) hall
  have hne : ¬ joinSep ["audio".toList, "output".toList, d.toList, f.toList]
      = joinSep ["audio".toList, "output".toList] := by
    intro h
    have := congrArg (List.splitOn '/') h
    rw [hsplitT, hsplitB] at this
    simp at this
  have hdot : ¬ joinSep ["audio".toList, "output".toList] = ['.'] := by decide
  have hnb : ¬ joinSep ["audio".toList, "output".toList] = [] := by decide
  have hnt : ¬ joinSep ["audio".toList, "output".toList, d.toList, f.toList] = [] :=
    (joinSep_head _ _ valid_audio).1
  have hhb : (joinSep ["audio".toList, "output".toList]).head? = some 'a' := by decide
  have hht : (joinSep ["audio".toList, "output".toList, d.toList, f.toList]).head?
      = some 'a' := by
    simp [joinSep_cons_cons]
  show (relChars AudioDir.toList
    (joinSep ["audio".toList, "output".toList, d.toList, f.toList])).map String.mk = _
  simp only [relChars, hbase, htarg, hne, hdot, hnb, hnt, if_false, hhb, hht, hsplitB,
    hsplitT, relWalk_under_root]
  simp


theorem stringsSplit_catalog (d f : String) (hd : validElem d.toList)
    (hf : validElem f.toList) :
    stringsSplit (String.mk (joinSep [d.toList, f.toList])) = [d, f] := by
  have hall : ∀ c ∈ [d.toList, f.toList], validElem c := by
    intro c hc
    simp only [List.mem_cons, List.mem_singleton, List.not_mem_nil, or_false] at hc
    rcases hc with rfl | rfl
    · exact hd
    · exact hf
  show ((joinSep [d.toList, f.toList]).splitOn '/').map String.mk = [d, f]
  rw [splitOn_joinSep _ (by simp) hall]
  rfl

/-- `getTrackInfoFromPath` on the path `loadTracks` builds for a file of a folder. -/
theorem getTrackInfoFromPath_catalog (stat : String → StatResult) (d f : String)
    (hd : validElem d.toList) (hf : validElem f.toList) (size : Nat)
    (hstat : stat (filepathJoin [filepathJoin [AudioDir, d], f]) = StatResult.info size) :
    getTrackInfoFromPath stat (filepathJoin [filepathJoin [AudioDir, d], f])
      = Except.ok { Folder := d, Name := f, Duration := size / (SampleRate * BytesPerSample) } := by
  rw [filepathJoin_file d f hd hf] at hstat ⊢
  unfold getTrackInfoFromPath
  rw [filepathRel_catalog d f hd hf]
  simp only [stringsSplit_catalog d f hd hf, hstat]
  simp

/-- The inner loop of `loadTracks` over the listing of a folder whose qualifying files
can all be described. -/
theorem foldl_scanFile (stat : String → StatResult) (d : String) (hd : validElem d.toList)
    (files : List DirEntry) :
    ∀ acc : Nat × List Track,
      (∀ f ∈ files, validElem f.Name.toList) →
      (∀ f ∈ files, f.IsDir = false → hasSuffix f.Name ".pcm" = true →
        (stat (filepathJoin [filepathJoin [AudioDir, d], f.Name])).isInfo = true) →
      (files.foldl (scanFile stat (filepathJoin [AudioDir, d])) acc).1
          = acc.1 + qualifyingCount files ∧
        (files.foldl (scanFile stat (filepathJoin [AudioDir, d])) acc).2.length
          = acc.2.length + qualifyingCount files := by
  induction files with
  | nil => intro acc _ _; simp [qualifyingCount]
  | cons f fs ih =>
    intro acc hnames hstat
    have hrest := fun acc2 => ih acc2 (fun g hg => hnames g (List.mem_cons_of_mem f hg))
      (fun g hg => hstat g (List.mem_cons_of_mem f hg))
    rw [List.foldl_cons]
    by_cases hq : f.IsDir = false ∧ hasSuffix f.Name ".pcm" = true
    · have hinfo := hstat f (List.mem_cons_self f fs) hq.1 hq.2
      cases hs : stat (filepathJoin [filepathJoin [AudioDir, d], f.Name]) with
      | info size =>
        have htrack := getTrackInfoFromPath_catalog stat d f.Name hd
          (hnames f (List.mem_cons_self f fs)) size hs
        have hstep : scanFile stat (filepathJoin [AudioDir, d]) acc f
            = (acc.1 + 1, acc.2 ++ [Track.mk d f.Name (size / (SampleRate * BytesPerSample))]) := by
          simp [scanFile, hq.1, hq.2, htrack]
        rw [hstep]
        obtain ⟨e1, e2⟩ := hrest (acc.1 + 1, acc.2 ++ [Track.mk d f.Name (size / (SampleRate * BytesPerSample))])
        have hc : qualifyingCount (f :: fs) = qualifyingCount fs + 1 := by
          simp [qualifyingCount, hq.1, hq.2]
        rw [e1, e2, hc]
        simp only [List.length_append, List.length_singleton]
        constructor <;> omega
      | notExist => simp [hs, StatResult.isInfo] at hinfo
      | otherError => simp [hs, StatResult.isInfo] at hinfo
    · have hstep : scanFile stat (filepathJoin [AudioDir, d]) acc f = acc := by
        by_cases hdir : f.IsDir = true
        · simp [scanFile, hdir]
        · have hdir2 : f.IsDir = false := by simpa using hdir
          have hsuf : hasSuffix f.Name ".pcm" = false := by
            cases h : hasSuffix f.Name ".pcm" with
            | false => rfl
            | true => exact absurd ⟨hdir2, h⟩ hq
          simp [scanFile, hsuf]
      have hc : qualifyingCount (f :: fs) = qualifyingCount fs := by
        by_cases hdir : f.IsDir = true
        · simp [qualifyingCount, hdir]
        · have hdir2 : f.IsDir = false := by simpa using hdir
          have hsuf : hasSuffix f.Name ".pcm" = false := by
            cases h : hasSuffix f.Name ".pcm" with
            | false => rfl
            | true => exact absurd ⟨hdir2, h⟩ hq
          simp [qualifyingCount, hdir2, hsuf]
      rw [hstep, hc]
      exact hrest acc


/-- The outer loop of `loadTracks` over the entries of the root. -/
theorem foldl_scanEntry (fs : FileSystem) (listing : String → List DirEntry)
    (entries : List DirEntry) :
    ∀ trackList : TrackList,
      (∀ e ∈ entries, e.IsDir = true → validElem e.Name.toList ∧
        fs.readDir (filepathJoin [AudioDir, e.Name]) = some (listing e.Name)) →
      (∀ e ∈ entries, e.IsDir = true → ∀ f ∈ listing e.Name, validElem f.Name.toList ∧
        (f.IsDir = false → hasSuffix f.Name ".pcm" = true →
          (fs.stat (filepathJoin [filepathJoin [AudioDir, e.Name], f.Name])).isInfo = true)) →
      (entries.foldl (scanEntry fs) trackList).Folders
          = trackList.Folders ++ (entries.filter (fun e => e.IsDir)).map
              (fun e => Folder.mk e.Name (qualifyingCount (listing e.Name))) ∧
        (entries.foldl (scanEntry fs) trackList).Tracks.length
          = trackList.Tracks.length + ((entries.filter (fun e => e.IsDir)).map
              (fun e => qualifyingCount (listing e.Name))).sum := by
  induction entries with
  | nil => intro trackList _ _; simp
  | cons e es ih =>
    intro trackList hfolders hfiles
    have hrest := fun tl => ih tl (fun g hg => hfolders g (List.mem_cons_of_mem e hg))
      (fun g hg => hfiles g (List.mem_cons_of_mem e hg))
    rw [List.foldl_cons]
    by_cases hdir : e.IsDir = true
    · obtain ⟨hname, hread⟩ := hfolders e (List.mem_cons_self e es) hdir
      have hlist := hfiles e (List.mem_cons_self e es) hdir
      obtain ⟨c1, c2⟩ := foldl_scanFile fs.stat e.Name hname (listing e.Name) (0, [])
        (fun f hf => (hlist f hf).1) (fun f hf => (hlist f hf).2)
      have hstep : scanEntry fs trackList e
          = { Folders := trackList.Folders ++ [Folder.mk e.Name
                ((listing e.Name).foldl
                  (scanFile fs.stat (filepathJoin [AudioDir, e.Name])) (0, [])).1],
              Tracks := trackList.Tracks ++ ((listing e.Name).foldl
                  (scanFile fs.stat (filepathJoin [AudioDir, e.Name])) (0, [])).2 } := by
        simp [scanEntry, hdir, hread]
      obtain ⟨e1, e2⟩ := hrest (scanEntry fs trackList e)
      rw [e1, e2, hstep]
      simp only [List.filter_cons, hdir, if_true, List.map_cons, List.sum_cons,
        List.length_append, c1, c2, List.length_nil, Nat.zero_add]
      constructor
      · simp
      · omega
    · have hstep : scanEntry fs trackList e = trackList := by
        simp [scanEntry, hdir]
      rw [hstep]
      obtain ⟨e1, e2⟩ := hrest trackList
      rw [e1, e2]
      simp [List.filter_cons, hdir]

/-- C9: when the root and its folders can be read and the qualifying files can be
described, `loadTracks` returns one `Folder` for each directory entry of the root, in
the order of the listing, whose `TrackCount` is the number of entries of that folder
that are no directory and end in `.pcm`; entries of the root that are no directory and
every other entry of a folder are ignored, and `Tracks` has as many elements as the
`TrackCount`s add up to. -/
theorem loadTracks_folders_and_tracks (fs : FileSystem) (entries : List DirEntry)
    (listing : String → List DirEntry)
    (hroot : fs.readDir AudioDir = some entries)
    (hfolders : ∀ e ∈ entries, e.IsDir = true → validName e.Name ∧
      fs.readDir (filepathJoin [AudioDir, e.Name]) = some (listing e.Name))
    (hfiles : ∀ e ∈ entries, e.IsDir = true → ∀ f ∈ listing e.Name,
      validName f.Name ∧
      (f.IsDir = false → hasSuffix f.Name ".pcm" = true →
        (fs.stat (filepathJoin [filepathJoin [AudioDir, e.Name], f.Name])).isInfo = true)) :
    ∃ trackList, loadTracks fs = some trackList ∧
      trackList.Folders = (entries.filter (fun e => e.IsDir)).map
        (fun e => Folder.mk e.Name (qualifyingCount (listing e.Name))) ∧
      trackList.Tracks.length = (trackList.Folders.map (fun f => f.TrackCount)).sum := by
  obtain ⟨e1, e2⟩ := foldl_scanEntry fs listing entries { Folders := [], Tracks := [] }
    hfolders hfiles
  refine ⟨entries.foldl (scanEntry fs) { Folders := [], Tracks := [] }, ?_, ?_, ?_⟩
  · simp [loadTracks, hroot]
  · simpa using e1
  · rw [e2, e1]
    simp [List.map_map, Function.comp_def]

/-- Witness of C9: folder `F1` with two qualifying files, folder `F2` with one
qualifying file, one other file and a nested directory, and a file under the root. -/
theorem loadTracks_folders_and_tracks_witness :
    ∃ trackList, loadTracks exampleCatalog = some trackList ∧
      trackList.Folders = [Folder.mk "F1" 2, Folder.mk "F2" 1] ∧
      trackList.Tracks.length = (trackList.Folders.map (fun f => f.TrackCount)).sum :=
  loadTracks_folders_and_tracks exampleCatalog exampleRoot exampleListing
    (by decide) (by decide) (by decide)

/-- The catalog of the example, as `loadTracks` returns it. -/
theorem loadTracks_example :
    loadTracks exampleCatalog = some
      { Folders := [Folder.mk "F1" 2, Folder.mk "F2" 1],
        Tracks := [Track.mk "F1" "a.pcm" 5, Track.mk "F1" "b.pcm" 5, Track.mk "F2" "c.pcm" 5] } := by
  decide

/-! ## Durations -/

/-- C10 as stated fails: a file of five seconds that lies directly under the root
exists, yet `getTrackInfoFromPath` reports no duration for it but fails with
`os.ErrInvalid`, its path relative to `AudioDir` having one element only. -/
theorem getTrackInfoFromPath_rejects_root_file :
    filepathRel AudioDir "audio/output/x.pcm" = some "x.pcm" ∧
      stringsSplit "x.pcm" = ["x.pcm"] ∧
      getTrackInfoFromPath (fun _ => StatResult.info (SampleRate * BytesPerSample * 5))
        "audio/output/x.pcm" = Except.error TrackError.invalid := by
  decide

theorem relWalk_root_file (a o d : List Char) (ha : a ≠ []) (ho : o ≠ []) :
    relWalk [a, o] [a, o, d] = some d := by
  have h1 : ¬ joinSep [a, o] = [] := by simp [joinSep_cons_cons]
  have h2 : ¬ joinSep [o] = [] := by simp [joinSep_singleton, ho]
  have h3 : ¬ joinSep [a, o, d] = [] := by simp [joinSep_cons_cons]
  have h4 : ¬ joinSep [o, d] = [] := by simp [joinSep_cons_cons]
  have h5 : joinSep [] = [] := rfl
  have _ := ha
  simp [relWalk, h1, h2, h3, h4, h5, joinSep_singleton, ho]

/-- `filepath.Rel(AudioDir, filePath)` for the path of a file directly under the root. -/
theorem filepathRel_root_file (name : String) (hname : validName name) :
    filepathRel AudioDir (filepathJoin [AudioDir, name]) = some name := by
  rw [filepathJoin_folder name hname]
  have hall : ∀ c ∈ ["audio".toList, "output".toList, name.toList], validElem c :=
    valid_under_root [name.toList] (by simpa using hname)
  have hbase : cleanChars AudioDir.toList = joinSep ["audio".toList, "output".toList] := by
    decide
  have htarg := cleanChars_joinSep _ (by simp) hall
  have hsplitB : (joinSep ["audio".toList, "output".toList]).splitOn '/'
      = ["audio".toList, "output".toList] := by decide
  have hsplitT := splitOn_joinSep _ (by simp) hall
  have hne : ¬ joinSep ["audio".toList, "output".toList, name.toList]
      = joinSep ["audio".toList, "output".toList] := by
    intro h
    have := congrArg (List.splitOn '/') h
    rw [hsplitT, hsplitB] at this
    simp at this
  have hdot : ¬ joinSep ["audio".toList, "output".toList] = ['.'] := by decide
  have hnb : ¬ joinSep ["audio".toList, "output".toList] = [] := by decide
  have hnt : ¬ joinSep ["audio".toList, "output".toList, name.toList] = [] :=
    (joinSep_head _ _ valid_audio).1
  have hhb : (joinSep ["audio".toList, "output".toList]).head? = some 'a' := by decide
  have hht : (joinSep ["audio".toList, "output".toList, name.toList]).head?
      = some 'a' := by
    simp [joinSep_cons_cons]
  have hwalk := relWalk_root_file "audio".toList "output".toList name.toList
    (by decide) (by decide)
  show (relChars AudioDir.toList
    (joinSep ["audio".toList, "output".toList, name.toList])).map String.mk = _
  simp only [relChars, hbase, htarg, hne, hdot, hnb, hnt, if_false, hhb, hht, hsplitB,
    hsplitT, hwalk]
  rfl

theorem stringsSplit_name (name : String) (hname : validName name) :
    stringsSplit name = [name] := by
  have h := splitOn_joinSep [name.toList] (by simp) (by simpa using hname)
  rw [joinSep_singleton] at h
  show (name.toList.splitOn '/').map String.mk = [name]
  rw [h]
  rfl

/-- A file directly under the root has no duration: `getTrackInfoFromPath` fails with
`os.ErrInvalid` whatever `os.Stat` answers. -/
theorem getTrackInfoFromPath_root_file (stat : String → StatResult) (name : String)
    (hname : validName name) :
    getTrackInfoFromPath stat (filepathJoin [AudioDir, name])
      = Except.error TrackError.invalid := by
  unfold getTrackInfoFromPath
  rw [filepathRel_root_file name hname]
  simp only [stringsSplit_name name hname]
  simp

/-- C10 amended: for an existing file of `s` bytes whose path relative to `AudioDir`
has at least two elements, `getTrackInfoFromPath` reports
`Duration = floor(s / (SampleRate * BytesPerSample)) = floor(s / 192000)`: 5 for a file
of `SampleRate * BytesPerSample * 5` bytes and for a file one byte larger. For a file
directly under `AudioDir`, existing or not, and more generally for every path with
fewer than two elements relative to `AudioDir`, it reports no duration but fails with
`os.ErrInvalid`. -/
theorem getTrackInfoFromPath_duration (stat : String → StatResult)
    (filePath relPath rootName : String) (s : Nat)
    (hrel : filepathRel AudioDir filePath = some relPath)
    (hparts : 2 ≤ (stringsSplit relPath).length)
    (hstat : stat filePath = StatResult.info s)
    (hroot : validName rootName) :
    (∃ track, getTrackInfoFromPath stat filePath = Except.ok track ∧
      track.Duration = s / (SampleRate * BytesPerSample) ∧
      track.Duration = s / 192000 ∧
      (s = SampleRate * BytesPerSample * 5 → track.Duration = 5) ∧
      (s = SampleRate * BytesPerSample * 5 + 1 → track.Duration = 5)) ∧
      (∀ anyStat : String → StatResult,
        getTrackInfoFromPath anyStat (filepathJoin [AudioDir, rootName])
          = Except.error TrackError.invalid) ∧
      (∀ (anyStat : String → StatResult) (path rel : String),
        filepathRel AudioDir path = some rel → (stringsSplit rel).length < 2 →
        getTrackInfoFromPath anyStat path = Except.error TrackError.invalid) := by
  have hnot : ¬ (stringsSplit relPath).length < 2 := Nat.not_lt.mpr hparts
  have hrate : SampleRate * BytesPerSample = 192000 := by decide
  refine ⟨⟨Track.mk ((stringsSplit relPath).headD "") ((stringsSplit relPath).getLastD "")
    (s / (SampleRate * BytesPerSample)), ?_, rfl, ?_, ?_, ?_⟩, ?_, ?_⟩
  · simp only [getTrackInfoFromPath, hrel, hnot, if_false, hstat]
  · simp only [hrate]
  · intro hs
    simp only [hs, hrate]
  · intro hs
    simp only [hs, hrate]
  · intro anyStat
    exact getTrackInfoFromPath_root_file anyStat rootName hroot
  · intro anyStat path rel hr hlt
    simp only [getTrackInfoFromPath, hr, hlt, if_true]

/-- Witness of C10 amended: a file of a folder, one byte larger than five seconds, and
the file `x.pcm` directly under the root. -/
theorem getTrackInfoFromPath_duration_witness :
    (∃ track, getTrackInfoFromPath
        (fun _ => StatResult.info (SampleRate * BytesPerSample * 5 + 1))
        "audio/output/F1/a.pcm" = Except.ok track ∧
      track.Duration = (SampleRate * BytesPerSample * 5 + 1) / (SampleRate * BytesPerSample) ∧
      track.Duration = (SampleRate * BytesPerSample * 5 + 1) / 192000 ∧
      (SampleRate * BytesPerSample * 5 + 1 = SampleRate * BytesPerSample * 5 →
        track.Duration = 5) ∧
      (SampleRate * BytesPerSample * 5 + 1 = SampleRate * BytesPerSample * 5 + 1 →
        track.Duration = 5)) ∧
      (∀ anyStat : String → StatResult,
        getTrackInfoFromPath anyStat (filepathJoin [AudioDir, "x.pcm"])
          = Except.error TrackError.invalid) ∧
      (∀ (anyStat : String → StatResult) (path rel : String),
        filepathRel AudioDir path = some rel → (stringsSplit rel).length < 2 →
        getTrackInfoFromPath anyStat path = Except.error TrackError.invalid) :=
  getTrackInfoFromPath_duration (fun _ => StatResult.info (SampleRate * BytesPerSample * 5 + 1))
    "audio/output/F1/a.pcm" "F1/a.pcm" "x.pcm" (SampleRate * BytesPerSample * 5 + 1)
    (by decide) (by decide) rfl (by decide)

/-! ## The values written to ActiveTrack -/

theorem hasSuffix_append (s suffix : String) : hasSuffix (s ++ suffix) suffix = true := by
  have h : (s ++ suffix).toList = s.toList ++ suffix.toList := rfl
  simp only [hasSuffix, h]
  exact List.isSuffixOf_iff_suffix.mpr (List.suffix_append _ _)

theorem playTarget_hasSuffix (body : PlayBody) : hasSuffix (playTarget body) ".pcm" = true := by
  unfold playTarget
  by_cases h : hasSuffix (filepathJoin [AudioDir, body.Folder, body.Track]) ".pcm" = true
  · simp [h]
  · simp [h, hasSuffix_append]

theorem index_mem (files : List String) (i : Int) (f : String)
    (h : index files i = some f) : f ∈ files ∧ files.length ≠ 0 := by
  unfold index at h
  by_cases hc : 0 ≤ i ∧ i < (files.length : Int)
  · rw [if_pos hc] at h
    have hmem := List.getElem?_mem h
    exact ⟨hmem, fun h0 => by simp [List.length_eq_zero.mp h0] at hmem⟩
  · rw [if_neg hc] at h
    exact absurd h (by simp)

theorem mem_of_mem_sortStrings (globbed : List String) (p : String)
    (h : p ∈ sortStrings globbed) : p ∈ globbed :=
  (List.perm_insertionSort goStringLE globbed).subset h

/-- A path the auto-advance step writes is one of the paths just listed. -/
theorem autoAdvance_write_mem (currentTrack : String) (globbed : List String) (p : String)
    (h : autoAdvance currentTrack globbed = IterationResult.write p) : p ∈ globbed := by
  unfold autoAdvance at h
  simp only at h
  split at h
  · split at h
    · rename_i f hf
      have hp : f = p := by simpa using h
      exact mem_of_mem_sortStrings globbed p (hp ▸ (index_mem _ _ f hf).1)
    · exact absurd h (by simp)
  · split at h
    · rename_i f hf
      obtain ⟨hmem, hlen⟩ := index_mem _ _ f hf
      rw [if_neg hlen] at h
      have hp : f = p := by simpa using h
      exact mem_of_mem_sortStrings globbed p (hp ▸ hmem)
    · exact absurd h (by simp)

/-- C8 as stated fails: a set-track call whose folder and track climb out of the
catalog root succeeds and stores a path that does not lie under `AudioDir`. -/
theorem handlePlay_escapes_audioDir :
    playTarget { Folder := "..", Track := "../music/x" } = "music/x.pcm" ∧
      (handlePlay (fun _ => StatResult.info 960000) "" false
        (some { Folder := "..", Track := "../music/x" })).status = 200 ∧
      (handlePlay (fun _ => StatResult.info 960000) "" false
        (some { Folder := "..", Track := "../music/x" })).activeTrackPath = "music/x.pcm" ∧
      underAudioDir (handlePlay (fun _ => StatResult.info 960000) "" false
        (some { Folder := "..", Track := "../music/x" })).activeTrackPath = false := by
  decide

/-- With a catalog that is not empty the auto-advance step writes a path. -/
theorem autoAdvance_writes (currentTrack : String) (globbed : List String)
    (hne : globbed ≠ []) : ∃ p, autoAdvance currentTrack globbed = IterationResult.write p := by
  have hperm : (sortStrings globbed).Perm globbed := List.perm_insertionSort goStringLE globbed
  have hlen : 0 < (sortStrings globbed).length := by
    rw [hperm.length_eq]
    exact List.length_pos.mpr hne
  have hlen0 : ¬ (sortStrings globbed).length = 0 := Nat.ne_of_gt hlen
  have hci : -1 ≤ findCurrentIndex currentTrack (sortStrings globbed) := by
    unfold findCurrentIndex
    split
    · exact le_trans (by decide) (Int.ofNat_nonneg _)
    · exact le_refl _
  unfold autoAdvance
  simp only
  split
  · rename_i hcond
    have hnat : (findCurrentIndex currentTrack (sortStrings globbed) + 1).toNat
        < (sortStrings globbed).length := by
      omega
    have hbound : 0 ≤ findCurrentIndex currentTrack (sortStrings globbed) + 1 ∧
        findCurrentIndex currentTrack (sortStrings globbed) + 1
          < ((sortStrings globbed).length : Int) := by
      constructor <;> omega
    refine ⟨(sortStrings globbed).get ⟨_, hnat⟩, ?_⟩
    simp [index, hbound, List.getElem?_eq_getElem hnat]
  · refine ⟨(sortStrings globbed).get ⟨0, hlen⟩, ?_⟩
    have hbound : (0 : Int) ≤ 0 ∧ (0 : Int) < ((sortStrings globbed).length : Int) :=
      ⟨le_refl _, by omega⟩
    simp [index, hbound, List.getElem?_eq_getElem hlen, hlen0]

/-! ## Paths listed by `filepath.Glob` and paths built by `handlePlay` -/

theorem catalog_path_chars (d n : List Char) :
    joinSep ["audio".toList, "output".toList, d, n]
      = (AudioDir ++ "/").toList ++ (d ++ '/' :: n) := by
  have h : (AudioDir ++ "/").toList = "audio".toList ++ '/' :: ("output".toList ++ ['/']) := by
    decide
  rw [h, joinSep_cons_cons, joinSep_cons_cons, joinSep_cons_cons, joinSep_singleton]
  simp only [List.append_assoc, List.cons_append, List.nil_append]

theorem underAudioDir_catalog (d n : List Char) :
    underAudioDir (String.mk (joinSep ["audio".toList, "output".toList, d, n])) = true := by
  show (AudioDir ++ "/").toList.isPrefixOf
    (joinSep ["audio".toList, "output".toList, d, n]) = true
  rw [catalog_path_chars]
  exact List.isPrefixOf_iff_prefix.mpr (List.prefix_append _ _)

theorem hasSuffix_catalog (d : List Char) (n : String) (h : hasSuffix n ".pcm" = true) :
    hasSuffix (String.mk (joinSep ["audio".toList, "output".toList, d, n.toList])) ".pcm"
      = true := by
  have hn : ".pcm".toList <:+ n.toList := List.isSuffixOf_iff_suffix.mp h
  show ".pcm".toList.isSuffixOf (joinSep ["audio".toList, "output".toList, d, n.toList]) = true
  rw [catalog_path_chars]
  refine List.isSuffixOf_iff_suffix.mpr ?_
  have h1 : n.toList <:+ (AudioDir ++ "/").toList ++ (d ++ '/' :: n.toList) := by
    refine ⟨(AudioDir ++ "/").toList ++ (d ++ ['/']), ?_⟩
    simp only [List.append_assoc, List.cons_append, List.nil_append]
  exact hn.trans h1

theorem underAudioDir_append (path suffix : String) (h : underAudioDir path = true) :
    underAudioDir (path ++ suffix) = true := by
  have hp : (AudioDir ++ "/").toList <+: path.toList := List.isPrefixOf_iff_prefix.mp h
  show (AudioDir ++ "/").toList.isPrefixOf (path.toList ++ suffix.toList) = true
  exact List.isPrefixOf_iff_prefix.mpr (hp.trans (List.prefix_append _ _))

/-- `filepath.Join(AudioDir, folder, track)` for valid names. -/
theorem filepathJoin_triple (d f : String) (hd : validName d) (hf : validName f) :
    filepathJoin [AudioDir, d, f]
      = String.mk (joinSep ["audio".toList, "output".toList, d.toList, f.toList]) := by
  have hA : ¬ AudioDir = "" := by decide
  have hclean := cleanChars_joinSep ["audio".toList, "output".toList, d.toList, f.toList]
    (by simp) (valid_under_root [d.toList, f.toList] (by
      intro c hc
      simp only [List.mem_cons, List.mem_singleton, List.not_mem_nil, or_false] at hc
      rcases hc with rfl | rfl
      · exact hd
      · exact hf))
  have hj : joinSep [AudioDir.toList, d.toList, f.toList]
      = joinSep ["audio".toList, "output".toList, d.toList, f.toList] := by
    rw [audioDir_elems]
    simp [joinSep_cons_cons, joinSep_singleton]
  have hrest : filepathJoin [AudioDir, d, f]
      = String.mk (cleanChars (joinSep [AudioDir.toList, d.toList, f.toList])) := by
    simp [filepathJoin, List.dropWhile, hA]
  rw [hrest, hj, hclean]

/-- The path `handlePlay` builds from a folder and a track that are plain names: the path
of the track in its folder, with `.pcm` appended when absent, under `AudioDir`. -/
theorem playTarget_valid (body : PlayBody) (hd : validName body.Folder)
    (hf : validName body.Track) :
    underAudioDir (playTarget body) = true ∧
      (playTarget body = filepathJoin [filepathJoin [AudioDir, body.Folder], body.Track] ∨
        playTarget body
          = filepathJoin [filepathJoin [AudioDir, body.Folder], body.Track] ++ ".pcm") := by
  have hj := filepathJoin_triple body.Folder body.Track hd hf
  have hj2 := filepathJoin_file body.Folder body.Track hd hf
  have hu := underAudioDir_catalog body.Folder.toList body.Track.toList
  by_cases h : hasSuffix (filepathJoin [AudioDir, body.Folder, body.Track]) ".pcm" = true
  · have hpt : playTarget body = filepathJoin [AudioDir, body.Folder, body.Track] := by
      simp [playTarget, h]
    rw [hpt, hj2, hj]
    exact ⟨hu, Or.inl rfl⟩
  · have hpt : playTarget body
        = filepathJoin [AudioDir, body.Folder, body.Track] ++ ".pcm" := by
      simp [playTarget, h]
    rw [hpt, hj2, hj]
    exact ⟨underAudioDir_append _ _ hu, Or.inr rfl⟩

theorem mem_names_sorted (entries : List DirEntry) (d : String)
    (h : d ∈ sortStrings (entries.map (fun e => e.Name))) : ∃ e ∈ entries, e.Name = d := by
  have := mem_of_mem_sortStrings _ d h
  obtain ⟨e, he, hname⟩ := List.mem_map.mp this
  exact ⟨e, he, hname⟩

/-- A path listed by `filepath.Glob` lies under `AudioDir`, carries the suffix and names
an entry of a folder of the root. -/
theorem mem_filepathGlob (fs : FileSystem) (hnames : catalogNamesValid fs) (p : String)
    (hp : p ∈ filepathGlob fs) :
    underAudioDir p = true ∧ hasSuffix p ".pcm" = true ∧ listedInCatalog fs p := by
  unfold filepathGlob at hp
  cases hroot : fs.readDir AudioDir with
  | none => simp [hroot] at hp
  | some entries =>
    simp only [hroot, List.mem_flatten, List.mem_map] at hp
    obtain ⟨l, ⟨d, hd, rfl⟩, hpl⟩ := hp
    obtain ⟨e, he, rfl⟩ := mem_names_sorted entries d hd
    have heroot : e ∈ (fs.readDir AudioDir).getD [] := by simpa [hroot] using he
    obtain ⟨hvalid, hfiles⟩ := hnames e heroot
    unfold globFolder at hpl
    cases hdir : fs.readDir (filepathJoin [AudioDir, e.Name]) with
    | none => simp [hdir] at hpl
    | some files =>
      simp only [hdir, List.mem_map, List.mem_filter] at hpl
      obtain ⟨n, ⟨hn, hsuf⟩, rfl⟩ := hpl
      obtain ⟨f, hf, rfl⟩ := mem_names_sorted files n hn
      have hflisted : f ∈ (fs.readDir (filepathJoin [AudioDir, e.Name])).getD [] := by
        simpa [hdir] using hf
      have hfvalid := hfiles f hflisted
      refine ⟨?_, ?_, ⟨e, heroot, f, hflisted, rfl⟩⟩
      · rw [filepathJoin_file e.Name f.Name hvalid hfvalid]
        exact underAudioDir_catalog _ _
      · rw [filepathJoin_file e.Name f.Name hvalid hfvalid]
        exact hasSuffix_catalog _ _ hsuf

/-- C8 amended: every operation that writes ActiveTrack leaves it empty or with the
`.pcm` suffix. The seed and the auto-advance step store one of the paths that
`filepath.Glob` has just listed for `AudioDir/*/*.pcm`: it lies under `AudioDir`,
carries the suffix and names an entry just listed in a folder of the root; the seed
stores one whenever ActiveTrack is empty and the list is not, the step whenever the
list is not empty. `handlePlay` builds the cleaned join of `AudioDir`, folder and
track, with `.pcm` appended when absent; when `os.Stat` of that path succeeds the path
names an existing file and is stored, when `os.Stat` answers that it does not exist
ActiveTrack stays as it was; when folder and track are plain names (not empty, without
separator, neither `.` nor `..`) the path is that of the track in its folder and lies
under `AudioDir`. -/
theorem activeTrack_written_values (fs : FileSystem)
    (playActive seedActive currentTrack nextTrack : String) (receiverWaiting : Bool)
    (body : Option PlayBody)
    (hinv : playActive = "" ∨ hasSuffix playActive ".pcm" = true)
    (hnames : catalogNamesValid fs) :
    ((handlePlay fs.stat playActive receiverWaiting body).activeTrackPath = "" ∨
        hasSuffix (handlePlay fs.stat playActive receiverWaiting body).activeTrackPath
          ".pcm" = true) ∧
      ((handlePlay fs.stat playActive receiverWaiting body).status = 200 →
        ∃ b, body = some b ∧
          (handlePlay fs.stat playActive receiverWaiting body).activeTrackPath
            = playTarget b ∧
          hasSuffix (playTarget b) ".pcm" = true ∧
          (fs.stat (playTarget b) ≠ StatResult.otherError →
            (fs.stat (playTarget b)).isInfo = true)) ∧
      ((handlePlay fs.stat playActive receiverWaiting body).status ≠ 200 →
        (handlePlay fs.stat playActive receiverWaiting body).activeTrackPath
          = playActive) ∧
      (∀ b, body = some b → (fs.stat (playTarget b)).isInfo = true →
        (handlePlay fs.stat playActive receiverWaiting body).status = 200 ∧
        (handlePlay fs.stat playActive receiverWaiting body).activeTrackPath
          = playTarget b) ∧
      (∀ b, body = some b → fs.stat (playTarget b) = StatResult.notExist →
        (handlePlay fs.stat playActive receiverWaiting body).status = 404 ∧
        (handlePlay fs.stat playActive receiverWaiting body).activeTrackPath
          = playActive) ∧
      (∀ b, body = some b → validName b.Folder → validName b.Track →
        underAudioDir (playTarget b) = true ∧
        (playTarget b = filepathJoin [filepathJoin [AudioDir, b.Folder], b.Track] ∨
          playTarget b
            = filepathJoin [filepathJoin [AudioDir, b.Folder], b.Track] ++ ".pcm")) ∧
      (∃ p, seedActiveTrack seedActive (some (filepathGlob fs)) = some p ∧
        (if seedActive = "" ∧ filepathGlob fs ≠ [] then
          p ∈ filepathGlob fs ∧ underAudioDir p = true ∧ hasSuffix p ".pcm" = true ∧
            listedInCatalog fs p
         else p = seedActive)) ∧
      (∀ p, loopIteration currentTrack nextTrack (some (filepathGlob fs))
          = IterationResult.write p →
        p ∈ filepathGlob fs ∧ underAudioDir p = true ∧ hasSuffix p ".pcm" = true ∧
          listedInCatalog fs p) ∧
      (currentTrack ≠ "" → currentTrack = nextTrack → filepathGlob fs ≠ [] →
        ∃ p, loopIteration currentTrack nextTrack (some (filepathGlob fs))
          = IterationResult.write p) := by
  refine ⟨?_, ?_, ?_, ?_, ?_, ?_, ?_, ?_, ?_⟩
  · cases body with
    | none => simpa [handlePlay] using hinv
    | some b =>
      by_cases hs : fs.stat (playTarget b) = StatResult.notExist
      · simpa [handlePlay, hs] using hinv
      · right
        simp [handlePlay, hs, playTarget_hasSuffix]
  · intro h200
    cases body with
    | none => simp [handlePlay] at h200
    | some b =>
      by_cases hs : fs.stat (playTarget b) = StatResult.notExist
      · simp [handlePlay, hs] at h200
      · refine ⟨b, rfl, by simp [handlePlay, hs], playTarget_hasSuffix b, ?_⟩
        intro hother
        cases hst : fs.stat (playTarget b) with
        | info size => rfl
        | notExist => exact absurd hst hs
        | otherError => exact absurd hst hother
  · intro hnot
    cases body with
    | none => simp [handlePlay]
    | some b =>
      by_cases hs : fs.stat (playTarget b) = StatResult.notExist
      · simp [handlePlay, hs]
      · simp [handlePlay, hs] at hnot
  · intro b hb hinfo
    subst hb
    have hs : ¬ fs.stat (playTarget b) = StatResult.notExist := by
      intro h
      rw [h] at hinfo
      simp [StatResult.isInfo] at hinfo
    simp [handlePlay, hs]
  · intro b hb hs
    subst hb
    simp [handlePlay, hs]
  · intro b _ hd hf
    exact playTarget_valid b hd hf
  · by_cases hcond : seedActive = "" ∧ filepathGlob fs ≠ []
    · obtain ⟨first, h1, h2, _⟩ := sortStrings_head_least (filepathGlob fs) hcond.2
      have hlen : 0 < (filepathGlob fs).length := List.length_pos.mpr hcond.2
      refine ⟨first, by simp [seedActiveTrack, hcond.1, hlen, h1], ?_⟩
      rw [if_pos hcond]
      exact ⟨h2, mem_filepathGlob fs hnames first h2⟩
    · refine ⟨seedActive, ?_, by rw [if_neg hcond]⟩
      by_cases hempty : seedActive = ""
      · have hnil : filepathGlob fs = [] := by
          by_contra hne
          exact hcond ⟨hempty, hne⟩
        simp [seedActiveTrack, hempty, hnil]
      · simp [seedActiveTrack, hempty]
  · intro p hp
    unfold loopIteration at hp
    split at hp
    · exact absurd hp (by simp)
    · split at hp
      · have hmem := autoAdvance_write_mem _ _ p hp
        exact ⟨hmem, mem_filepathGlob fs hnames p hmem⟩
      · exact absurd hp (by simp)
  · intro hcur hsame hne
    obtain ⟨p, hp⟩ := autoAdvance_writes currentTrack (filepathGlob fs) hne
    exact ⟨p, by simp [loopIteration, hcur, hsame.symm, hp]⟩

/-- Witness of C8 amended: on the example catalog the track `a` of folder `F1` is set
by `handlePlay`, an empty ActiveTrack is seeded, and the loop advances from track `a`,
still the active one when it ends. -/
theorem activeTrack_written_values_witness :
    ((handlePlay exampleCatalog.stat "" false
          (some { Folder := "F1", Track := "a" })).activeTrackPath = "" ∨
        hasSuffix (handlePlay exampleCatalog.stat "" false
          (some { Folder := "F1", Track := "a" })).activeTrackPath ".pcm" = true) ∧
      ((handlePlay exampleCatalog.stat "" false
          (some { Folder := "F1", Track := "a" })).status = 200 →
        ∃ b, some { Folder := "F1", Track := "a" } = some b ∧
          (handlePlay exampleCatalog.stat "" false
            (some { Folder := "F1", Track := "a" })).activeTrackPath = playTarget b ∧
          hasSuffix (playTarget b) ".pcm" = true ∧
          (exampleCatalog.stat (playTarget b) ≠ StatResult.otherError →
            (exampleCatalog.stat (playTarget b)).isInfo = true)) ∧
      ((handlePlay exampleCatalog.stat "" false
          (some { Folder := "F1", Track := "a" })).status ≠ 200 →
        (handlePlay exampleCatalog.stat "" false
          (some { Folder := "F1", Track := "a" })).activeTrackPath = "") ∧
      (∀ b, some { Folder := "F1", Track := "a" } = some b →
        (exampleCatalog.stat (playTarget b)).isInfo = true →
        (handlePlay exampleCatalog.stat "" false
          (some { Folder := "F1", Track := "a" })).status = 200 ∧
        (handlePlay exampleCatalog.stat "" false
          (some { Folder := "F1", Track := "a" })).activeTrackPath = playTarget b) ∧
      (∀ b, some { Folder := "F1", Track := "a" } = some b →
        exampleCatalog.stat (playTarget b) = StatResult.notExist →
        (handlePlay exampleCatalog.stat "" false
          (some { Folder := "F1", Track := "a" })).status = 404 ∧
        (handlePlay exampleCatalog.stat "" false
          (some { Folder := "F1", Track := "a" })).activeTrackPath = "") ∧
      (∀ b, some { Folder := "F1", Track := "a" } = some b →
        validName b.Folder → validName b.Track →
        underAudioDir (playTarget b) = true ∧
        (playTarget b = filepathJoin [filepathJoin [AudioDir, b.Folder], b.Track] ∨
          playTarget b
            = filepathJoin [filepathJoin [AudioDir, b.Folder], b.Track] ++ ".pcm")) ∧
      (∃ p, seedActiveTrack "" (some (filepathGlob exampleCatalog)) = some p ∧
        (if "" = "" ∧ filepathGlob exampleCatalog ≠ [] then
          p ∈ filepathGlob exampleCatalog ∧ underAudioDir p = true ∧
            hasSuffix p ".pcm" = true ∧ listedInCatalog exampleCatalog p
         else p = "")) ∧
      (∀ p, loopIteration "audio/output/F1/a.pcm" "audio/output/F1/a.pcm"
            (some (filepathGlob exampleCatalog)) = IterationResult.write p →
        p ∈ filepathGlob exampleCatalog ∧ underAudioDir p = true ∧
          hasSuffix p ".pcm" = true ∧ listedInCatalog exampleCatalog p) ∧
      ("audio/output/F1/a.pcm" ≠ "" → "audio/output/F1/a.pcm" = "audio/output/F1/a.pcm" →
        filepathGlob exampleCatalog ≠ [] →
        ∃ p, loopIteration "audio/output/F1/a.pcm" "audio/output/F1/a.pcm"
          (some (filepathGlob exampleCatalog)) = IterationResult.write p) :=
  activeTrack_written_values exampleCatalog "" "" "audio/output/F1/a.pcm"
    "audio/output/F1/a.pcm" false (some { Folder := "F1", Track := "a" })
    (Or.inl rfl) (by decide)

/-- The writes of the example: `filepath.Glob` lists the three tracks and the nested
directory whose name ends in `.pcm`, `handlePlay` stores track `a`, the seed stores
track `a`, the loop advances from `a` to `b`, and `handlePlay` leaves ActiveTrack as it
was for a track that does not exist. -/
theorem activeTrack_writes_example :
    filepathGlob exampleCatalog
        = ["audio/output/F1/a.pcm", "audio/output/F1/b.pcm", "audio/output/F2/c.pcm",
           "audio/output/F2/nested.pcm"] ∧
      (handlePlay exampleCatalog.stat "" false
        (some { Folder := "F1", Track := "a" })).activeTrackPath = "audio/output/F1/a.pcm" ∧
      seedActiveTrack "" (some (filepathGlob exampleCatalog))
        = some "audio/output/F1/a.pcm" ∧
      loopIteration "audio/output/F1/a.pcm" "audio/output/F1/a.pcm"
          (some (filepathGlob exampleCatalog))
        = IterationResult.write "audio/output/F1/b.pcm" ∧
      handlePlay (fun _ => StatResult.notExist) "audio/output/F1/a.pcm" true
          (some { Folder := "F1", Track := "missing" })
        = { status := 404, activeTrackPath := "audio/output/F1/a.pcm",
            stopDelivered := false } := by
  decide

/-! ## Switching the track while a file is streamed -/

theorem readFull_append (buf rest : List Byte) (size : Nat) (h : buf.length = size) :
    readFull (buf ++ rest) size = (buf, none, rest) := by
  have h1 : (buf ++ rest).take size = buf := by
    rw [← h]; exact List.take_left _ _
  have h2 : (buf ++ rest).drop size = rest := by
    rw [← h]; exact List.drop_left _ _
  simp only [readFull, h1, h2, h, if_true]

theorem readFull_exact (buf : List Byte) (size : Nat) (h : buf.length = size) :
    readFull buf size = (buf, none, []) := by
  have := readFull_append buf [] size h
  simpa using this

theorem run_returned (stat : String → StatResult) (k : Nat) :
    ∀ s : PacingState, s.phase = LoopPhase.returned → run stat s (tickSteps k) = s := by
  induction k with
  | zero => intro s _; rfl
  | succ k ih =>
    intro s h
    have h1 : step stat s Action.tickFires = s := by simp [step, h]
    have h2 : step stat s Action.tickBody = s := by simp [step, h]
    have := ih s h
    simp only [run, tickSteps, List.foldl_cons, h1, h2] at this ⊢
    exact this

/-- The step model refines `streamLoop`: a run of `k` ticks from a waiting loop
broadcasts the frames `streamLoop` lists for `k` tick events. -/
theorem run_ticks_broadcasts (stat : String → StatResult) (k : Nat) :
    ∀ s : PacingState, s.phase = LoopPhase.selecting →
      (run stat s (tickSteps k)).broadcasts
        = s.broadcasts ++ (streamLoop (List.replicate k SelectEvent.tick) s.rest).1.map
            (fun f => (s.activeTrackPath, f)) := by
  induction k with
  | zero => intro s _; simp [run, tickSteps, streamLoop]
  | succ k ih =>
    intro s h
    have h1 : step stat s Action.tickFires = { s with phase := LoopPhase.ticking } := by
      simp [step, h]
    have hrun : run stat s (tickSteps (k + 1))
        = run stat (step stat { s with phase := LoopPhase.ticking } Action.tickBody)
            (tickSteps k) := by
      simp only [run, tickSteps, List.foldl_cons, h1]
    rw [hrun]
    rcases hr : readFull s.rest frameBytes with ⟨buf, err, rest'⟩
    cases err with
    | none =>
      have h2 : step stat { s with phase := LoopPhase.ticking } Action.tickBody
          = { s with rest := rest', phase := LoopPhase.selecting,
                     broadcasts := s.broadcasts ++ [(s.activeTrackPath, buf)] } := by
        simp [step, hr]
      rw [h2, ih _ rfl]
      simp [List.replicate_succ, streamLoop, hr]
    | some e =>
      cases e with
      | eof =>
        have h2 : step stat { s with phase := LoopPhase.ticking } Action.tickBody
            = { s with rest := rest', phase := LoopPhase.returned } := by
          simp [step, hr]
        rw [h2, run_returned stat k _ rfl]
        simp [List.replicate_succ, streamLoop, hr]
      | unexpectedEOF =>
        have h2 : step stat { s with phase := LoopPhase.ticking } Action.tickBody
            = { s with rest := rest', phase := LoopPhase.returned,
                       broadcasts := if buf.length > 0
                         then s.broadcasts ++ [(s.activeTrackPath, buf)]
                         else s.broadcasts } := by
          simp [step, hr]
        rw [h2, run_returned stat k _ rfl]
        by_cases hb : buf.length > 0 <;> simp [List.replicate_succ, streamLoop, hr, hb]
      | other =>
        have h2 : step stat { s with phase := LoopPhase.ticking } Action.tickBody
            = { s with rest := rest', phase := LoopPhase.returned } := by
          simp [step, hr]
        rw [h2, run_returned stat k _ rfl]
        simp [List.replicate_succ, streamLoop, hr]

/-- The run of `switchSchedule` from a state with three full frames unread, for any
frames: the signal of `handlePlay` finds no receiver, and the three frames of the old
file are broadcast while ActiveTrack already holds the new path. -/
theorem run_switch_frames (stat : String → StatResult) (oldPath newPath : String)
    (body : PlayBody) (f1 f2 f3 : List Byte)
    (h1 : f1.length = frameBytes) (h2 : f2.length = frameBytes) (h3 : f3.length = frameBytes)
    (hplay : handlePlay stat oldPath false (some body)
      = { status := 200, activeTrackPath := newPath, stopDelivered := false }) :
    run stat
        { activeTrackPath := oldPath, filePath := oldPath, rest := f1 ++ (f2 ++ f3),
          phase := LoopPhase.selecting, broadcasts := [] }
        [Action.tickFires, Action.play body, Action.tickBody,
          Action.tickFires, Action.tickBody, Action.tickFires, Action.tickBody]
      = { activeTrackPath := newPath, filePath := oldPath, rest := [],
          phase := LoopPhase.selecting,
          broadcasts := [(newPath, f1), (newPath, f2), (newPath, f3)] } := by
  simp [run, step, hplay, readFull_append f1 (f2 ++ f3) frameBytes h1,
    readFull_append f2 f3 frameBytes h2, readFull_exact f3 frameBytes h3]

/-- C5, the code at the failing input: `handlePlay` sets track `b` while the loop that
streams track `a` is inside a tick. The send on the unbuffered `streamStopSignal` finds
no receiver and takes the `default` case; the loop never reads ActiveTrack again, and
all three frames left of `a` are broadcast after ActiveTrack has become `b`, two more
than the iteration that was under way. When the same call finds the loop waiting in its
`select`, the signal is received and no frame of `a` follows. -/
theorem handlePlay_mid_tick_keeps_old_file_streaming :
    (run exampleCatalog.stat switchStart switchSchedule).activeTrackPath
        = "audio/output/F1/b.pcm" ∧
      (run exampleCatalog.stat switchStart switchSchedule).filePath
        = "audio/output/F1/a.pcm" ∧
      (run exampleCatalog.stat switchStart switchSchedule).broadcasts
        = [("audio/output/F1/b.pcm", List.replicate frameBytes 1),
           ("audio/output/F1/b.pcm", List.replicate frameBytes 2),
           ("audio/output/F1/b.pcm", List.replicate frameBytes 3)] ∧
      (staleBroadcasts (run exampleCatalog.stat switchStart switchSchedule)).length = 3 ∧
      (run exampleCatalog.stat switchStart
        [Action.play { Folder := "F1", Track := "b" }, Action.tickFires, Action.tickBody,
          Action.tickFires, Action.tickBody]).phase = LoopPhase.returned ∧
      (run exampleCatalog.stat switchStart
        [Action.play { Folder := "F1", Track := "b" }, Action.tickFires, Action.tickBody,
          Action.tickFires, Action.tickBody]).broadcasts = [] := by
  have hplay : handlePlay exampleCatalog.stat "audio/output/F1/a.pcm" false
      (some { Folder := "F1", Track := "b" })
      = { status := 200, activeTrackPath := "audio/output/F1/b.pcm",
          stopDelivered := false } := by
    decide
  have hplay2 : handlePlay exampleCatalog.stat "audio/output/F1/a.pcm" true
      (some { Folder := "F1", Track := "b" })
      = { status := 200, activeTrackPath := "audio/output/F1/b.pcm",
          stopDelivered := true } := by
    decide
  have hrun : run exampleCatalog.stat switchStart switchSchedule = _ :=
    run_switch_frames exampleCatalog.stat "audio/output/F1/a.pcm"
      "audio/output/F1/b.pcm" { Folder := "F1", Track := "b" }
      (List.replicate frameBytes 1) (List.replicate frameBytes 2)
      (List.replicate frameBytes 3)
      (List.length_replicate _ _) (List.length_replicate _ _) (List.length_replicate _ _)
      hplay
  have hne : ("audio/output/F1/b.pcm" : String) ≠ "audio/output/F1/a.pcm" := by decide
  rw [hrun]
  refine ⟨rfl, rfl, rfl, ?_, ?_, ?_⟩
  · simp [staleBroadcasts, hne]
  · simp [run, step, switchStart, hplay2]
  · simp [run, step, switchStart, hplay2]

end GoTransport
